import Mathlib

/-!
Verification development for the `lcov-diff` crate.

The crate computes a structural diff of two lcov coverage reports: the first
report is copied, every record that the second report shows as covered is
cleared in the copy, and (optionally) sections left without any signal are
dropped.  The coverage model is a three-level mapping (report → section →
functions / branches / lines) held in `BTreeMap`s.

We embed the data model shallowly: each `BTreeMap` becomes an association
list (`List (K × V)`); a `BTreeMap` produced by the lcov parser always has
strictly sorted and hence pairwise distinct keys, which we capture by the
well-formedness predicates `NodupKeys`, `SectionValue.WF` and `Report.WF`
where a claim needs it.  Iteration over a map in the Rust code becomes
left-to-right traversal of the list (for a sorted list this is exactly the
ascending-key iteration order of a `BTreeMap`).  Fallible Rust functions
returning `Result<T, MergeError>` become Lean functions into
`Except MergeError T`, and in-place mutation of `&mut self` becomes returning
the updated value.
-/

set_option maxHeartbeats 1000000
set_option linter.unusedSectionVars false

namespace LcovDiff

/-- Section keys of an lcov report: (test name, source file). -/
abbrev SectionKey := String × String

/-- Function keys: the function name. -/
abbrev FunctionKey := String

/-- Branch keys: (line, block, branch). -/
abbrev BranchKey := Nat × Nat × Nat

/-- Line keys: the line number. -/
abbrev LineKey := Nat

/-- The two error variants of `lcov::report::MergeError` used by the crate:
`UnmatchedFunctionLine` and `UnmatchedChecksum`. -/
inductive MergeError where
  | unmatchedFunctionLine
  | unmatchedChecksum
deriving DecidableEq

/-- `pub struct IgnoreError { pub ignore_unmatched_line_error: bool }`. -/
structure IgnoreError where
  ignore_unmatched_line_error : Bool
deriving DecidableEq

/-- `pub struct PostProcessOptions { pub drop_zeros: bool }`. -/
structure PostProcessOptions where
  drop_zeros : Bool
deriving DecidableEq

/-- `lcov::report::section::function::Value`: optional start line and
invocation count. -/
structure FunctionValue where
  start_line : Option Nat
  count : Nat
deriving DecidableEq

/-- `lcov::report::section::branch::Value`: optional taken count. -/
structure BranchValue where
  taken : Option Nat
deriving DecidableEq

/-- `lcov::report::section::line::Value`: execution count and optional
checksum of the source line. -/
structure LineValue where
  count : Nat
  checksum : Option String
deriving DecidableEq

/-- `lcov::report::section::Value`: the three per-section mappings. -/
structure SectionValue where
  functions : List (FunctionKey × FunctionValue)
  branches : List (BranchKey × BranchValue)
  lines : List (LineKey × LineValue)
deriving DecidableEq

/-- `lcov::Report`: the section mapping. -/
structure Report where
  sections : List (SectionKey × SectionValue)
deriving DecidableEq

/-- `impl Diff for BranchValue` (src/lib.rs lines 48–58): if the other
branch's taken count is present and positive, clear ours to absent. -/
def BranchValue.diff (self other : BranchValue) (_ : IgnoreError) :
    Except MergeError BranchValue :=
  match other.taken with
  | some taken => if taken > 0 then .ok { taken := none } else .ok self
  | none => .ok self

/-- `impl Diff for FunctionValue` (src/lib.rs lines 69–89), first half: a
present, differing start line is an error unless
`ignore_unmatched_line_error` is set, in which case the count is cleared. -/
def FunctionValue.guard (self other : FunctionValue) (ignore : IgnoreError) :
    Except MergeError FunctionValue :=
  match other.start_line, self.start_line with
  | some start_line, some my_start_line =>
    if start_line ≠ my_start_line then
      if ignore.ignore_unmatched_line_error then .ok { self with count := 0 }
      else .error .unmatchedFunctionLine
    else .ok self
  | _, _ => .ok self

/-- `impl Diff for FunctionValue`, continued: after the start-line guard, a
positive count in `other` clears our count. -/
def FunctionValue.diff (self other : FunctionValue) (ignore : IgnoreError) :
    Except MergeError FunctionValue :=
  match FunctionValue.guard self other ignore with
  | .error e => .error e
  | .ok s => if other.count > 0 then .ok { s with count := 0 } else .ok s

/-- `impl Diff for LineValue` (src/lib.rs lines 91–106), first half: present,
differing checksums are always an error, with no ignore override. -/
def LineValue.guard (self other : LineValue) : Except MergeError LineValue :=
  match other.checksum, self.checksum with
  | some checksum, some my_checksum =>
    if checksum ≠ my_checksum then .error .unmatchedChecksum
    else .ok self
  | _, _ => .ok self

/-- `impl Diff for LineValue`, continued: after the checksum guard, a
positive count in `other` clears our count. -/
def LineValue.diff (self other : LineValue) (_ : IgnoreError) :
    Except MergeError LineValue :=
  match LineValue.guard self other with
  | .error e => .error e
  | .ok s => if other.count > 0 then .ok { s with count := 0 } else .ok s

/-- One step of `impl Diff for BTreeMap` (src/lib.rs lines 108–122): the
`self.entry(key.clone())` match for a single key of `other`.  A vacant entry
is skipped; an occupied one is diffed in place (the first entry with the key
— the only one for a well-formed map). -/
def diffAt {K V : Type} [DecidableEq K]
    (d : V → V → IgnoreError → Except MergeError V) (ignore : IgnoreError)
    (k : K) (ov : V) : List (K × V) → Except MergeError (List (K × V))
  | [] => .ok []
  | (k₁, v) :: rest =>
    if k₁ = k then
      match d v ov ignore with
      | .ok v₁ => .ok ((k₁, v₁) :: rest)
      | .error e => .error e
    else
      match diffAt d ignore k ov rest with
      | .ok rest₁ => .ok ((k₁, v) :: rest₁)
      | .error e => .error e

/-- `impl Diff for BTreeMap` (src/lib.rs lines 108–122): `for (key, value)
in other { ... }`, threading `self` through, stopping at the first error. -/
def mapDiff {K V : Type} [DecidableEq K]
    (d : V → V → IgnoreError → Except MergeError V)
    (self other : List (K × V)) (ignore : IgnoreError) :
    Except MergeError (List (K × V)) :=
  match other with
  | [] => .ok self
  | (k, ov) :: rest =>
    match diffAt d ignore k ov self with
    | .ok self₁ => mapDiff d self₁ rest ignore
    | .error e => .error e

/-- `impl Diff for SectionValue` (src/lib.rs lines 60–67): diff functions,
then branches, then lines. -/
def SectionValue.diff (self other : SectionValue) (ignore : IgnoreError) :
    Except MergeError SectionValue :=
  match mapDiff FunctionValue.diff self.functions other.functions ignore with
  | .error e => .error e
  | .ok fs =>
    match mapDiff BranchValue.diff self.branches other.branches ignore with
    | .error e => .error e
    | .ok bs =>
      match mapDiff LineValue.diff self.lines other.lines ignore with
      | .error e => .error e
      | .ok ls => .ok { functions := fs, branches := bs, lines := ls }

/-- `impl Diff for Report` (src/lib.rs lines 43–47): diff the section map. -/
def Report.diff (self other : Report) (ignore : IgnoreError) :
    Except MergeError Report :=
  match mapDiff SectionValue.diff self.sections other.sections ignore with
  | .ok secs => .ok ⟨secs⟩
  | .error e => .error e

/-- The retain predicate of `diff_reports` (src/lib.rs lines 28–33): a
section is kept when it has at least one branch with a **present** taken
count, or one function with positive count, or one line with positive
count. -/
def sectionHasSignal (v : SectionValue) : Bool :=
  v.branches.any (fun b => b.2.taken.isSome)
    || v.functions.any (fun f => f.2.count > 0)
    || v.lines.any (fun l => l.2.count > 0)

/-- `diff_reports` (src/lib.rs lines 22–36).  The Rust function first
creates an empty `Report` and merges `first` into it; merging into an empty
report finds every section key vacant and inserts the sections unchanged, so
this copy step cannot fail and is modelled as using `first` directly.  Then
the copy is diffed against `second`, and with `drop_zeros` set the sections
without signal are dropped. -/
def diff_reports (first second : Report) (ignore : IgnoreError)
    (post_process_options : PostProcessOptions) : Except MergeError Report :=
  match Report.diff first second ignore with
  | .error e => .error e
  | .ok rep =>
    if post_process_options.drop_zeros then
      .ok ⟨rep.sections.filter (fun s => sectionHasSignal s.2)⟩
    else .ok rep

/-! ### Auxiliary predicates and observations on the model -/

/-- The key list of an association list. -/
def keysOf {K V : Type} (m : List (K × V)) : List K := m.map Prod.fst

/-- A `BTreeMap` never holds two entries with the same key; its association
list image has pairwise distinct keys. -/
def NodupKeys {K V : Type} (m : List (K × V)) : Prop := (keysOf m).Nodup

/-- Well-formedness of a section: its three maps come from `BTreeMap`s. -/
def SectionValue.WF (s : SectionValue) : Prop :=
  NodupKeys s.functions ∧ NodupKeys s.branches ∧ NodupKeys s.lines

/-- Well-formedness of a report: the section map and every section come
from `BTreeMap`s. -/
def Report.WF (r : Report) : Prop :=
  NodupKeys r.sections ∧ ∀ kv ∈ r.sections, SectionValue.WF kv.2

instance (s : SectionValue) : Decidable (SectionValue.WF s) := by
  unfold SectionValue.WF NodupKeys; infer_instance

instance (r : Report) : Decidable (Report.WF r) := by
  unfold Report.WF NodupKeys; infer_instance

/-- A branch record carries positive signal: taken present and positive. -/
def branchPosB (b : BranchValue) : Bool :=
  match b.taken with
  | some t => t > 0
  | none => false

/-- Two function records disagree on a present start line. -/
def slConflictB (f g : FunctionValue) : Bool :=
  match f.start_line, g.start_line with
  | some a, some b => a ≠ b
  | _, _ => false

/-- Two line records disagree on a present checksum. -/
def ckConflictB (l m : LineValue) : Bool :=
  match l.checksum, m.checksum with
  | some a, some b => a ≠ b
  | _, _ => false

/-- The two reports contain, under a shared section key, a shared function
key whose records disagree on a present start line. -/
def funConflictB (first second : Report) : Bool :=
  first.sections.any fun sf =>
    second.sections.any fun so =>
      sf.1 = so.1 && sf.2.functions.any fun ff =>
        so.2.functions.any fun fo => ff.1 = fo.1 && slConflictB ff.2 fo.2

/-- The two reports contain, under a shared section key, a shared line key
whose records disagree on a present checksum. -/
def chkConflictB (first second : Report) : Bool :=
  first.sections.any fun sf =>
    second.sections.any fun so =>
      sf.1 = so.1 && sf.2.lines.any fun lf =>
        so.2.lines.any fun lo => lf.1 = lo.1 && ckConflictB lf.2 lo.2

/-- Every record of the report carries positive signal. -/
def Report.AllPositive (r : Report) : Prop :=
  ∀ kv ∈ r.sections,
    (∀ f ∈ kv.2.functions, f.2.count > 0) ∧
    (∀ b ∈ kv.2.branches, branchPosB b.2 = true) ∧
    (∀ l ∈ kv.2.lines, l.2.count > 0)

instance (r : Report) : Decidable (Report.AllPositive r) := by
  unfold Report.AllPositive; infer_instance

/-- A function record with its count cleared. -/
def clearFun (f : FunctionValue) : FunctionValue := { f with count := 0 }

/-- A branch record with its taken count cleared. -/
def clearBr (_ : BranchValue) : BranchValue := { taken := none }

/-- A line record with its count cleared. -/
def clearLn (l : LineValue) : LineValue := { l with count := 0 }

/-- A section with every record cleared. -/
def clearSec (s : SectionValue) : SectionValue :=
  { functions := s.functions.map fun kv => (kv.1, clearFun kv.2),
    branches := s.branches.map fun kv => (kv.1, clearBr kv.2),
    lines := s.lines.map fun kv => (kv.1, clearLn kv.2) }

/-- Whether an `Except` value is a success. -/
def isOkB {α : Type} : Except MergeError α → Bool
  | .ok _ => true
  | .error _ => false

/-! ### Order-parameterized section diff (for the sub-mapping order claim) -/

/-- The three sub-mappings of a section. -/
inductive SubMap where
  | functions
  | branches
  | lines
deriving DecidableEq

/-- Diff a single sub-mapping of a section against `other`'s. -/
def applySub (m : SubMap) (s other : SectionValue) (ignore : IgnoreError) :
    Except MergeError SectionValue :=
  match m with
  | .functions =>
    match mapDiff FunctionValue.diff s.functions other.functions ignore with
    | .ok fs => .ok { s with functions := fs }
    | .error e => .error e
  | .branches =>
    match mapDiff BranchValue.diff s.branches other.branches ignore with
    | .ok bs => .ok { s with branches := bs }
    | .error e => .error e
  | .lines =>
    match mapDiff LineValue.diff s.lines other.lines ignore with
    | .ok ls => .ok { s with lines := ls }
    | .error e => .error e

/-- Diff the listed sub-mappings of a section, in the given order. -/
def sectionDiffIn : List SubMap → SectionValue → SectionValue → IgnoreError →
    Except MergeError SectionValue
  | [], s, _, _ => .ok s
  | m :: rest, s, other, ignore =>
    match applySub m s other ignore with
    | .ok s₁ => sectionDiffIn rest s₁ other ignore
    | .error e => .error e

/-! ### Signature relations (for the count-magnitude noninterference claim) -/

/-- Two function records with the same start line and the same count
positivity. -/
def FunSig (f g : FunctionValue) : Prop :=
  f.start_line = g.start_line ∧ (f.count > 0 ↔ g.count > 0)

/-- Two branch records with the same "taken at all" signal. -/
def BrSig (b c : BranchValue) : Prop := branchPosB b = branchPosB c

/-- Two line records with the same checksum and the same count
positivity. -/
def LnSig (l m : LineValue) : Prop :=
  l.checksum = m.checksum ∧ (l.count > 0 ↔ m.count > 0)

/-- Two sections with the same key structure whose records agree on
positivity, checksums and start lines. -/
def SecSig (s t : SectionValue) : Prop :=
  List.Forall₂ (fun p q => p.1 = q.1 ∧ FunSig p.2 q.2) s.functions t.functions ∧
  List.Forall₂ (fun p q => p.1 = q.1 ∧ BrSig p.2 q.2) s.branches t.branches ∧
  List.Forall₂ (fun p q => p.1 = q.1 ∧ LnSig p.2 q.2) s.lines t.lines

/-- Two reports with the same key structure whose records agree on
positivity, checksums and start lines. -/
def RepSig (r q : Report) : Prop :=
  List.Forall₂ (fun p w => p.1 = w.1 ∧ SecSig p.2 w.2) r.sections q.sections

/-! ### Preservation relations used for error inversion -/

/-- Function diffing never changes the start line. -/
def FunPres (f g : FunctionValue) : Prop := g.start_line = f.start_line

/-- Line diffing never changes the checksum. -/
def LinePres (l m : LineValue) : Prop := m.checksum = l.checksum

/-- Section diffing keeps every sub-key and the immutable identity fields
(start lines, checksums) of every record. -/
def SecPres (s t : SectionValue) : Prop :=
  List.Forall₂ (fun p q => p.1 = q.1 ∧ FunPres p.2 q.2) s.functions t.functions ∧
  List.Forall₂ (fun (p q : BranchKey × BranchValue) => p.1 = q.1) s.branches t.branches ∧
  List.Forall₂ (fun p q => p.1 = q.1 ∧ LinePres p.2 q.2) s.lines t.lines

/-! ### Concrete reports used as counterexamples and witnesses -/

def c1First : Report :=
  ⟨[(("t", "a.c"), { functions := [("main", ⟨some 1, 5⟩)], branches := [], lines := [] })]⟩

def c1Second : Report :=
  ⟨[(("t", "a.c"), { functions := [("main", ⟨some 2, 0⟩)], branches := [], lines := [] })]⟩

def c1Out : Report :=
  ⟨[(("t", "a.c"), { functions := [("main", ⟨some 1, 0⟩)], branches := [], lines := [] })]⟩

def w1First : Report :=
  ⟨[(("t", "a.c"),
    { functions := [("f", ⟨some 1, 3⟩)],
      branches := [((7, 0, 0), ⟨some 2⟩)],
      lines := [(4, ⟨4, none⟩)] })]⟩

def w1Second : Report :=
  ⟨[(("t", "a.c"),
    { functions := [("f", ⟨some 1, 7⟩)],
      branches := [((7, 0, 0), ⟨some 0⟩)],
      lines := [(4, ⟨0, none⟩)] })]⟩

def w1Out : Report :=
  ⟨[(("t", "a.c"),
    { functions := [("f", ⟨some 1, 0⟩)],
      branches := [((7, 0, 0), ⟨some 2⟩)],
      lines := [(4, ⟨4, none⟩)] })]⟩

def c2First : Report :=
  ⟨[(("t", "a.c"), { functions := [], branches := [], lines := [(1, ⟨0, none⟩)] })]⟩

def w2First : Report :=
  ⟨[(("t", "a.c"), { functions := [("f", ⟨some 1, 2⟩)], branches := [], lines := [(3, ⟨1, none⟩)] })]⟩

def w2Second : Report :=
  ⟨[(("t", "a.c"), { functions := [("g", ⟨some 5, 4⟩)], branches := [], lines := [(9, ⟨1, none⟩)] })]⟩

def c3First : Report :=
  ⟨[(("t", "x"),
    { functions := [("f", ⟨some 1, 1⟩)], branches := [], lines := [(1, ⟨1, some "a"⟩)] })]⟩

def c3Second : Report :=
  ⟨[(("t", "x"),
    { functions := [("f", ⟨some 2, 1⟩)], branches := [], lines := [(1, ⟨1, some "b"⟩)] })]⟩

def w3First : Report :=
  ⟨[(("t", "x"), { functions := [], branches := [], lines := [(1, ⟨1, some "a"⟩)] })]⟩

def w3Second : Report :=
  ⟨[(("t", "x"), { functions := [], branches := [], lines := [(1, ⟨2, some "b"⟩)] })]⟩

def c4First : Report :=
  ⟨[(("t", "a"), { functions := [], branches := [], lines := [(1, ⟨1, some "a"⟩)] }),
    (("t", "b"), { functions := [("f", ⟨some 1, 1⟩)], branches := [], lines := [] })]⟩

def c4Second : Report :=
  ⟨[(("t", "a"), { functions := [], branches := [], lines := [(1, ⟨1, some "b"⟩)] }),
    (("t", "b"), { functions := [("f", ⟨some 2, 1⟩)], branches := [], lines := [] })]⟩

def w4First : Report :=
  ⟨[(("t", "x"), { functions := [("f", ⟨some 1, 3⟩)], branches := [], lines := [] })]⟩

def w4Second : Report :=
  ⟨[(("t", "x"), { functions := [("f", ⟨some 9, 0⟩)], branches := [], lines := [] })]⟩

def c5First : Report :=
  ⟨[(("t", "f"), { functions := [], branches := [((0, 0, 0), ⟨some 0⟩)], lines := [] })]⟩

def w5First : Report :=
  ⟨[(("t", "f"), { functions := [], branches := [], lines := [(1, ⟨2, none⟩)] })]⟩

def c7S : SectionValue :=
  { functions := [("f", ⟨some 1, 1⟩)], branches := [], lines := [(1, ⟨1, some "a"⟩)] }

def c7O : SectionValue :=
  { functions := [("f", ⟨some 2, 1⟩)], branches := [], lines := [(1, ⟨1, some "b"⟩)] }

def w7S : SectionValue :=
  { functions := [("f", ⟨some 1, 1⟩)],
    branches := [((2, 0, 0), ⟨some 1⟩)],
    lines := [(1, ⟨1, none⟩)] }

def w7O : SectionValue :=
  { functions := [("f", ⟨some 1, 2⟩)],
    branches := [((2, 0, 0), ⟨some 3⟩)],
    lines := [(1, ⟨0, none⟩)] }

def c8Rep : Report :=
  ⟨[(("t", "x"),
    { functions := [("f", ⟨some 1, 2⟩)],
      branches := [((1, 0, 0), ⟨some 3⟩)],
      lines := [(1, ⟨4, some "h"⟩)] })]⟩

def w9First : Report :=
  ⟨[(("t", "x"), { functions := [("f", ⟨none, 1⟩)], branches := [], lines := [(2, ⟨0, none⟩)] })]⟩

def w9Second : Report :=
  ⟨[(("t", "y"), { functions := [("f", ⟨some 3, 8⟩)], branches := [], lines := [(2, ⟨5, none⟩)] })]⟩

def c10First : Report :=
  ⟨[(("t", "x"),
    { functions := [("f", ⟨some 1, 5⟩)],
      branches := [((0, 0, 0), ⟨some 7⟩)],
      lines := [(2, ⟨3, none⟩)] })]⟩

def c10A : Report :=
  ⟨[(("t", "x"),
    { functions := [("f", ⟨some 1, 1⟩)],
      branches := [((0, 0, 0), ⟨some 1⟩)],
      lines := [(2, ⟨1, none⟩)] })]⟩

def c10B : Report :=
  ⟨[(("t", "x"),
    { functions := [("f", ⟨some 1, 9⟩)],
      branches := [((0, 0, 0), ⟨some 42⟩)],
      lines := [(2, ⟨33, none⟩)] })]⟩

/-! ## Generic lemmas about the mapping-level diff -/

section MapLemmas

variable {K V : Type} [DecidableEq K]
variable {d : V → V → IgnoreError → Except MergeError V} {ig : IgnoreError}

theorem mem_keysOf {m : List (K × V)} {k : K} {v : V} (h : (k, v) ∈ m) :
    k ∈ keysOf m :=
  List.mem_map.mpr ⟨(k, v), h, rfl⟩

theorem mem_unique {m : List (K × V)} {k : K} {a b : V}
    (hnd : NodupKeys m) (ha : (k, a) ∈ m) (hb : (k, b) ∈ m) : a = b := by
  induction m with
  | nil => cases ha
  | cons p rest ih =>
    obtain ⟨k₁, w⟩ := p
    simp only [NodupKeys, keysOf, List.map_cons, List.nodup_cons] at hnd
    rcases List.mem_cons.mp ha with ha₁ | ha₁ <;>
      rcases List.mem_cons.mp hb with hb₁ | hb₁
    · cases ha₁
      injection hb₁ with h₁ h₂
      exact h₂.symm
    · cases ha₁
      exact absurd (mem_keysOf hb₁) hnd.1
    · cases hb₁
      exact absurd (mem_keysOf ha₁) hnd.1
    · exact ih hnd.2 ha₁ hb₁

theorem diffAt_keys {k : K} {ov : V} : ∀ {self res : List (K × V)},
    diffAt d ig k ov self = .ok res → keysOf res = keysOf self := by
  intro self
  induction self with
  | nil => intro res h; simp [diffAt] at h; subst h; rfl
  | cons p rest ih =>
    intro res h
    obtain ⟨k₁, v⟩ := p
    by_cases hk : k₁ = k
    · cases hd : d v ov ig with
      | ok v₁ =>
        simp [diffAt, hk, hd] at h
        subst h
        simp only [keysOf, List.map_cons]
        exact congrArg (· :: _) hk.symm
      | error e => simp [diffAt, hk, hd] at h
    · cases hr : diffAt d ig k ov rest with
      | ok rest₁ =>
        simp [diffAt, hk, hr] at h
        subst h
        simp only [keysOf, List.map_cons]
        exact congrArg (_ :: ·) (ih hr)
      | error e => simp [diffAt, hk, hr] at h

theorem diffAt_error {k : K} {ov : V} {e : MergeError} : ∀ {self : List (K × V)},
    diffAt d ig k ov self = .error e → ∃ v, (k, v) ∈ self ∧ d v ov ig = .error e := by
  intro self
  induction self with
  | nil => intro h; simp [diffAt] at h
  | cons p rest ih =>
    intro h
    obtain ⟨k₁, v⟩ := p
    by_cases hk : k₁ = k
    · cases hd : d v ov ig with
      | ok v₁ => simp [diffAt, hk, hd] at h
      | error e₁ =>
        simp [diffAt, hk, hd] at h
        subst h
        exact ⟨v, by simp [hk], hd⟩
    · cases hr : diffAt d ig k ov rest with
      | ok rest₁ => simp [diffAt, hk, hr] at h
      | error e₁ =>
        simp [diffAt, hk, hr] at h
        subst h
        obtain ⟨v₁, hv₁, hdv₁⟩ := ih hr
        exact ⟨v₁, List.mem_cons_of_mem _ hv₁, hdv₁⟩

theorem diffAt_forall₂ {k : K} {ov : V} : ∀ {self res : List (K × V)},
    diffAt d ig k ov self = .ok res →
    List.Forall₂ (fun p q => p.1 = q.1 ∧ (q.2 = p.2 ∨ d p.2 ov ig = .ok q.2)) self res := by
  intro self
  induction self with
  | nil => intro res h; simp [diffAt] at h; subst h; exact .nil
  | cons p rest ih =>
    intro res h
    obtain ⟨k₁, v⟩ := p
    by_cases hk : k₁ = k
    · cases hd : d v ov ig with
      | ok v₁ =>
        simp [diffAt, hk, hd] at h
        subst h
        exact .cons ⟨hk, Or.inr hd⟩ (List.forall₂_same.mpr fun x _ => ⟨rfl, Or.inl rfl⟩)
      | error e => simp [diffAt, hk, hd] at h
    · cases hr : diffAt d ig k ov rest with
      | ok rest₁ =>
        simp [diffAt, hk, hr] at h
        subst h
        exact .cons ⟨rfl, Or.inl rfl⟩ (ih hr)
      | error e => simp [diffAt, hk, hr] at h

theorem diffAt_mem_ne {k₁ k : K} {ov : V} {v : V} : ∀ {self res : List (K × V)},
    diffAt d ig k₁ ov self = .ok res → k ≠ k₁ →
    ((k, v) ∈ res ↔ (k, v) ∈ self) := by
  intro self
  induction self with
  | nil => intro res h _; simp [diffAt] at h; subst h; rfl
  | cons p rest ih =>
    intro res h hne
    obtain ⟨k₂, w⟩ := p
    by_cases hk : k₂ = k₁
    · cases hd : d w ov ig with
      | ok v₁ =>
        simp [diffAt, hk, hd] at h
        subst h
        constructor
        · intro hmem
          rcases List.mem_cons.mp hmem with hc | hc
          · exact absurd (congrArg Prod.fst hc) hne
          · exact List.mem_cons_of_mem _ hc
        · intro hmem
          rcases List.mem_cons.mp hmem with hc | hc
          · exact absurd ((congrArg Prod.fst hc).trans hk) hne
          · exact List.mem_cons_of_mem _ hc
      | error e => simp [diffAt, hk, hd] at h
    · cases hr : diffAt d ig k₁ ov rest with
      | ok rest₁ =>
        simp [diffAt, hk, hr] at h
        subst h
        simp only [List.mem_cons]
        rw [ih hr hne]
      | error e => simp [diffAt, hk, hr] at h

theorem diffAt_mem_found {k : K} {ov v : V} : ∀ {self res : List (K × V)},
    diffAt d ig k ov self = .ok res → NodupKeys self → (k, v) ∈ self →
    ∃ v₁, d v ov ig = .ok v₁ ∧ (k, v₁) ∈ res := by
  intro self
  induction self with
  | nil => intro res _ _ hv; cases hv
  | cons p rest ih =>
    intro res h hnd hv
    obtain ⟨k₁, w⟩ := p
    by_cases hk : k₁ = k
    · cases hd : d w ov ig with
      | ok v₁ =>
        simp [diffAt, hk, hd] at h
        subst h
        rcases List.mem_cons.mp hv with hv₁ | hv₁
        · have hw : v = w := congrArg Prod.snd hv₁
          subst hw
          exact ⟨v₁, hd, List.mem_cons_self _ _⟩
        · exfalso
          have : k ∈ keysOf rest := mem_keysOf hv₁
          rw [hk] at hnd
          exact (List.nodup_cons.mp hnd).1 this
      | error e => simp [diffAt, hk, hd] at h
    · cases hr : diffAt d ig k ov rest with
      | ok rest₁ =>
        simp [diffAt, hk, hr] at h
        subst h
        rcases List.mem_cons.mp hv with hv₁ | hv₁
        · exact absurd (congrArg Prod.fst hv₁).symm hk
        · obtain ⟨v₁, hdv, hmem⟩ := ih hr (List.nodup_cons.mp hnd).2 hv₁
          exact ⟨v₁, hdv, List.mem_cons_of_mem _ hmem⟩
      | error e => simp [diffAt, hk, hr] at h

theorem diffAt_not_mem {k : K} {ov : V} : ∀ {self : List (K × V)},
    k ∉ keysOf self → diffAt d ig k ov self = .ok self := by
  intro self
  induction self with
  | nil => intro _; rfl
  | cons p rest ih =>
    intro h
    obtain ⟨k₁, v⟩ := p
    have hk : k₁ ≠ k := by
      intro hc; exact h (hc ▸ List.mem_cons_self _ _)
    have hrest : k ∉ keysOf rest := fun hc => h (List.mem_cons_of_mem _ hc)
    simp [diffAt, hk, ih hrest]

theorem diffAt_append {k : K} {ov v : V} {ys : List (K × V)} : ∀ {xs : List (K × V)},
    k ∉ keysOf xs →
    diffAt d ig k ov (xs ++ (k, v) :: ys) =
      (d v ov ig).map (fun v₁ => xs ++ (k, v₁) :: ys) := by
  intro xs
  induction xs with
  | nil =>
    intro _
    cases hd : d v ov ig <;> simp [diffAt, hd, Except.map]
  | cons p rest ih =>
    intro h
    obtain ⟨k₁, w⟩ := p
    have hk : k₁ ≠ k := by
      intro hc; exact h (hc ▸ List.mem_cons_self _ _)
    have hrest : k ∉ keysOf rest := fun hc => h (List.mem_cons_of_mem _ hc)
    cases hd : d v ov ig with
    | ok v₁ =>
      have := ih hrest
      rw [hd] at this
      simp [diffAt, hk, this, Except.map]
    | error e =>
      have := ih hrest
      rw [hd] at this
      simp [diffAt, hk, this, Except.map]

theorem forallTwoComp {α β γ : Type} {R : α → β → Prop} {S : β → γ → Prop}
    {T : α → γ → Prop} (h : ∀ a b c, R a b → S b c → T a c) :
    ∀ {l₁ : List α} {l₂ : List β} {l₃ : List γ},
      List.Forall₂ R l₁ l₂ → List.Forall₂ S l₂ l₃ → List.Forall₂ T l₁ l₃ := by
  intro l₁ l₂ l₃ h₁
  induction h₁ generalizing l₃ with
  | nil => intro h₂; cases h₂; exact .nil
  | cons hr _ ih =>
    intro h₂
    cases h₂ with
    | cons hs htail => exact .cons (h _ _ _ hr hs) (ih htail)

theorem forallTwoMemRight {α β : Type} {R : α → β → Prop} :
    ∀ {l₁ : List α} {l₂ : List β}, List.Forall₂ R l₁ l₂ → ∀ {b}, b ∈ l₂ →
      ∃ a, a ∈ l₁ ∧ R a b := by
  intro l₁ l₂ h
  induction h with
  | nil => intro b hb; cases hb
  | cons hr _ ih =>
    intro b hb
    rcases List.mem_cons.mp hb with hb₁ | hb₁
    · exact ⟨_, List.mem_cons_self _ _, hb₁ ▸ hr⟩
    · obtain ⟨a, ha, har⟩ := ih hb₁
      exact ⟨a, List.mem_cons_of_mem _ ha, har⟩

theorem forallTwoMemLeft {α β : Type} {R : α → β → Prop} :
    ∀ {l₁ : List α} {l₂ : List β}, List.Forall₂ R l₁ l₂ → ∀ {a}, a ∈ l₁ →
      ∃ b, b ∈ l₂ ∧ R a b := by
  intro l₁ l₂ h
  induction h with
  | nil => intro a ha; cases ha
  | cons hr _ ih =>
    intro a ha
    rcases List.mem_cons.mp ha with ha₁ | ha₁
    · exact ⟨_, List.mem_cons_self _ _, ha₁ ▸ hr⟩
    · obtain ⟨b, hb, hbr⟩ := ih ha₁
      exact ⟨b, List.mem_cons_of_mem _ hb, hbr⟩

theorem mapDiff_keys {other : List (K × V)} : ∀ {self res : List (K × V)},
    mapDiff d self other ig = .ok res → keysOf res = keysOf self := by
  induction other with
  | nil => intro self res h; simp [mapDiff] at h; subst h; rfl
  | cons p rest ih =>
    intro self res h
    obtain ⟨k, ov⟩ := p
    cases ha : diffAt d ig k ov self with
    | ok self₁ =>
      simp only [mapDiff] at h
      rw [ha] at h
      exact (ih h).trans (diffAt_keys ha)
    | error e => simp only [mapDiff] at h; rw [ha] at h; cases h

theorem mapDiff_forall₂ {P : V → V → Prop}
    (hrefl : ∀ v, P v v) (htrans : ∀ a b c, P a b → P b c → P a c)
    (hpres : ∀ v ov v₁, d v ov ig = .ok v₁ → P v v₁) :
    ∀ {other self res : List (K × V)},
      mapDiff d self other ig = .ok res →
      List.Forall₂ (fun p q => p.1 = q.1 ∧ P p.2 q.2) self res := by
  intro other
  induction other with
  | nil =>
    intro self res h
    simp [mapDiff] at h
    subst h
    exact List.forall₂_same.mpr fun x _ => ⟨rfl, hrefl _⟩
  | cons p rest ih =>
    intro self res h
    obtain ⟨k, ov⟩ := p
    cases ha : diffAt d ig k ov self with
    | ok self₁ =>
      simp only [mapDiff] at h
      rw [ha] at h
      have h₁ := diffAt_forall₂ ha
      have h₂ := ih h
      refine forallTwoComp ?_ h₁ h₂
      rintro a b c ⟨hab, hv⟩ ⟨hbc, hp⟩
      refine ⟨hab.trans hbc, ?_⟩
      rcases hv with hv | hv
      · exact hv ▸ hp
      · exact htrans _ _ _ (hpres _ _ _ hv) hp
    | error e => simp only [mapDiff] at h; rw [ha] at h; cases h

theorem mapDiff_error_orig {P : V → V → Prop}
    (hrefl : ∀ v, P v v) (htrans : ∀ a b c, P a b → P b c → P a c)
    (hpres : ∀ v ov v₁, d v ov ig = .ok v₁ → P v v₁) {e : MergeError} :
    ∀ {other self : List (K × V)},
      mapDiff d self other ig = .error e →
      ∃ k ov v₀ v₁, (k, ov) ∈ other ∧ (k, v₀) ∈ self ∧ P v₀ v₁ ∧
        d v₁ ov ig = .error e := by
  intro other
  induction other with
  | nil => intro self h; simp [mapDiff] at h
  | cons p rest ih =>
    intro self h
    obtain ⟨k, ov⟩ := p
    cases ha : diffAt d ig k ov self with
    | ok self₁ =>
      simp only [mapDiff] at h
      rw [ha] at h
      obtain ⟨k₁, ov₁, v₀, v₁, hov, hv₀, hp, hd⟩ := ih h
      have h₁ := diffAt_forall₂ ha
      obtain ⟨⟨k₂, u₀⟩, hu₀, hk₂, hrel⟩ := forallTwoMemRight h₁ hv₀
      have hk₂' : k₂ = k₁ := hk₂
      have hpu : P u₀ v₀ := by
        rcases hrel with hv | hv
        · have hv' : v₀ = u₀ := hv
          rw [hv']
          exact hrefl _
        · exact hpres _ _ _ hv
      have hu₀' : (k₁, u₀) ∈ self := hk₂' ▸ hu₀
      exact ⟨k₁, ov₁, u₀, v₁, List.mem_cons_of_mem _ hov, hu₀',
        htrans _ _ _ hpu hp, hd⟩
    | error e₁ =>
      simp only [mapDiff] at h
      rw [ha] at h
      cases h
      obtain ⟨v, hv, hd⟩ := diffAt_error ha
      exact ⟨k, ov, v, v, List.mem_cons_self _ _, hv, hrefl _, hd⟩

theorem mapDiff_ok_shared {P : V → V → Prop}
    (hrefl : ∀ v, P v v) (htrans : ∀ a b c, P a b → P b c → P a c)
    (hpres : ∀ v ov v₁, d v ov ig = .ok v₁ → P v v₁) {k : K} {ov : V} :
    ∀ {other self res : List (K × V)} {v₀ : V},
      mapDiff d self other ig = .ok res → NodupKeys self →
      (k, ov) ∈ other → (k, v₀) ∈ self →
      ∃ v₁ v₂, P v₀ v₁ ∧ d v₁ ov ig = .ok v₂ := by
  intro other
  induction other with
  | nil => intro self res v₀ _ _ hov; cases hov
  | cons p rest ih =>
    intro self res v₀ h hnd hov hv₀
    obtain ⟨k₁, ov₁⟩ := p
    cases ha : diffAt d ig k₁ ov₁ self with
    | ok self₁ =>
      simp only [mapDiff] at h
      rw [ha] at h
      rcases List.mem_cons.mp hov with hov₁ | hov₁
      · have hk : k = k₁ := congrArg Prod.fst hov₁
        have hov' : ov = ov₁ := congrArg Prod.snd hov₁
        subst hk; subst hov'
        obtain ⟨v₁, hd, _⟩ := diffAt_mem_found ha hnd hv₀
        exact ⟨v₀, v₁, hrefl _, hd⟩
      · have h₁ := diffAt_forall₂ ha
        obtain ⟨⟨k₂, u₁⟩, hu₁, hk₂, hrel⟩ := forallTwoMemLeft h₁ hv₀
        have hk₂' : k = k₂ := hk₂
        have hpu : P v₀ u₁ := by
          rcases hrel with hv | hv
          · have hv' : u₁ = v₀ := hv
            rw [hv']
            exact hrefl _
          · exact hpres _ _ _ hv
        have hnd₁ : NodupKeys self₁ := by
          unfold NodupKeys
          rw [diffAt_keys ha]
          exact hnd
        have hu₁' : (k, u₁) ∈ self₁ := hk₂'.symm ▸ hu₁
        obtain ⟨v₁, v₂, hp, hd⟩ := ih h hnd₁ hov₁ hu₁'
        exact ⟨v₁, v₂, htrans _ _ _ hpu hp, hd⟩
    | error e => simp only [mapDiff] at h; rw [ha] at h; cases h

theorem mapDiff_mem_notin {k : K} {v : V} : ∀ {other self res : List (K × V)},
    mapDiff d self other ig = .ok res → k ∉ keysOf other →
    ((k, v) ∈ res ↔ (k, v) ∈ self) := by
  intro other
  induction other with
  | nil => intro self res h _; simp [mapDiff] at h; subst h; rfl
  | cons p rest ih =>
    intro self res h hk
    obtain ⟨k₁, ov₁⟩ := p
    have hne : k ≠ k₁ := by
      intro hc; exact hk (hc ▸ List.mem_cons_self _ _)
    have hkrest : k ∉ keysOf rest := fun hc => hk (List.mem_cons_of_mem _ hc)
    cases ha : diffAt d ig k₁ ov₁ self with
    | ok self₁ =>
      simp only [mapDiff] at h
      rw [ha] at h
      rw [ih h hkrest]
      exact diffAt_mem_ne ha hne
    | error e => simp only [mapDiff] at h; rw [ha] at h; cases h

theorem mapDiff_lookup {k : K} {v ov : V} : ∀ {other self res : List (K × V)},
    mapDiff d self other ig = .ok res → NodupKeys self → NodupKeys other →
    (k, v) ∈ self → (k, ov) ∈ other →
    ∃ v₁, d v ov ig = .ok v₁ ∧ (k, v₁) ∈ res := by
  intro other
  induction other with
  | nil => intro self res _ _ _ _ hov; cases hov
  | cons p rest ih =>
    intro self res h hnd hndo hv hov
    obtain ⟨k₁, ov₁⟩ := p
    cases ha : diffAt d ig k₁ ov₁ self with
    | ok self₁ =>
      simp only [mapDiff] at h
      rw [ha] at h
      simp only [NodupKeys, keysOf, List.map_cons, List.nodup_cons] at hndo
      rcases List.mem_cons.mp hov with hov₁ | hov₁
      · have hk : k = k₁ := congrArg Prod.fst hov₁
        have hov' : ov = ov₁ := congrArg Prod.snd hov₁
        subst hk; subst hov'
        obtain ⟨v₁, hd, hmem⟩ := diffAt_mem_found ha hnd hv
        refine ⟨v₁, hd, ?_⟩
        exact (mapDiff_mem_notin h hndo.1).mpr hmem
      · have hne : k ≠ k₁ := by
          intro hc
          subst hc
          exact hndo.1 (mem_keysOf hov₁)
        have hv₁ : (k, v) ∈ self₁ := (diffAt_mem_ne ha hne).mpr hv
        have hnd₁ : NodupKeys self₁ := by
          unfold NodupKeys
          rw [diffAt_keys ha]
          exact hnd
        exact ih h hnd₁ hndo.2 hv₁ hov₁
    | error e => simp only [mapDiff] at h; rw [ha] at h; cases h

theorem mapDiff_disjoint : ∀ {other self : List (K × V)},
    (∀ kv ∈ other, kv.1 ∉ keysOf self) → mapDiff d self other ig = .ok self := by
  intro other
  induction other with
  | nil => intro self _; rfl
  | cons p rest ih =>
    intro self h
    obtain ⟨k, ov⟩ := p
    have hk : k ∉ keysOf self := h (k, ov) (List.mem_cons_self _ _)
    have hrest : ∀ kv ∈ rest, kv.1 ∉ keysOf self :=
      fun kv hkv => h kv (List.mem_cons_of_mem _ hkv)
    simp only [mapDiff]
    rw [diffAt_not_mem hk]
    exact ih hrest

theorem mapDiff_self_clears {g : V → V} : ∀ {other pre : List (K × V)},
    NodupKeys (pre ++ other) →
    (∀ kv ∈ other, d kv.2 kv.2 ig = .ok (g kv.2)) →
    mapDiff d (pre.map (fun kv => (kv.1, g kv.2)) ++ other) other ig =
      .ok ((pre ++ other).map (fun kv => (kv.1, g kv.2))) := by
  intro other
  induction other with
  | nil => intro pre _ _; simp [mapDiff]
  | cons p rest ih =>
    intro pre hnd hg
    obtain ⟨k, v⟩ := p
    have hkpre : k ∉ keysOf (pre.map (fun kv => (kv.1, g kv.2))) := by
      intro hc
      simp only [keysOf, List.map_map] at hc
      have hc' : k ∈ keysOf pre := by
        simpa [keysOf, Function.comp] using hc
      simp only [NodupKeys, keysOf, List.map_append, List.map_cons] at hnd
      have := (List.nodup_append.mp hnd).2.2
      exact this hc' (List.mem_cons_self _ _)
    have hd : d v v ig = .ok (g v) := hg (k, v) (List.mem_cons_self _ _)
    simp only [mapDiff]
    rw [diffAt_append hkpre, hd]
    simp only [Except.map]
    have hnd' : NodupKeys ((pre ++ [(k, v)]) ++ rest) := by
      simp only [NodupKeys, keysOf, List.map_append] at hnd ⊢
      simpa [List.append_assoc] using hnd
    have hg' : ∀ kv ∈ rest, d kv.2 kv.2 ig = .ok (g kv.2) :=
      fun kv hkv => hg kv (List.mem_cons_of_mem _ hkv)
    have := ih hnd' hg'
    simp only [List.map_append, List.map_cons, List.map_nil] at this ⊢
    simpa [List.append_assoc] using this

theorem mapDiff_congr : ∀ {other other₂ self : List (K × V)},
    List.Forall₂ (fun p q => p.1 = q.1 ∧ ∀ v, d v p.2 ig = d v q.2 ig)
      other other₂ →
    mapDiff d self other ig = mapDiff d self other₂ ig := by
  intro other other₂ self h
  induction h generalizing self with
  | nil => rfl
  | @cons p q l₁ l₂ hr htail ih =>
    obtain ⟨k, ov⟩ := p
    obtain ⟨k₂, ov₂⟩ := q
    obtain ⟨hk, hov⟩ := hr
    have hk' : k = k₂ := hk
    subst hk'
    have hda : diffAt d ig k ov self = diffAt d ig k ov₂ self := by
      clear ih
      induction self with
      | nil => rfl
      | cons pp prest ihp =>
        obtain ⟨kk, vv⟩ := pp
        by_cases hkk : kk = k
        · simp [diffAt, hkk, hov vv]
        · simp [diffAt, hkk, ihp]
    simp only [mapDiff]
    rw [hda]
    cases diffAt d ig k ov₂ self with
    | ok self₁ => exact ih
    | error e => rfl

end MapLemmas

/-! ## Value-level characterizations -/

theorem branch_diff_eq (b o : BranchValue) (ig : IgnoreError) :
    BranchValue.diff b o ig =
      .ok (if branchPosB o = true then ⟨none⟩ else b) := by
  unfold BranchValue.diff branchPosB
  cases o.taken with
  | some t =>
    by_cases ht : t > 0 <;> simp [ht]
  | none => simp

theorem branch_diff_pos {o : BranchValue} (h : branchPosB o = true)
    (b : BranchValue) (ig : IgnoreError) :
    BranchValue.diff b o ig = .ok (clearBr b) := by
  rw [branch_diff_eq, h]
  rfl

theorem branch_diff_nonpos {o : BranchValue} (h : branchPosB o = false)
    (b : BranchValue) (ig : IgnoreError) :
    BranchValue.diff b o ig = .ok b := by
  rw [branch_diff_eq, h]
  rfl

theorem branch_diff_no_error {b o : BranchValue} {ig : IgnoreError}
    {e : MergeError} (h : BranchValue.diff b o ig = .error e) : False := by
  rw [branch_diff_eq] at h
  cases h

theorem slConflict_self (f : FunctionValue) : slConflictB f f = false := by
  unfold slConflictB
  cases f.start_line <;> simp

theorem slConflict_symm (f g : FunctionValue) :
    slConflictB f g = slConflictB g f := by
  unfold slConflictB
  cases f.start_line with
  | none => cases g.start_line <;> simp
  | some a =>
    cases g.start_line with
    | none => simp
    | some b =>
      by_cases hab : a = b <;> simp [hab, Ne, eq_comm]

theorem slConflict_congr {f g : FunctionValue} (h : f.start_line = g.start_line)
    (o : FunctionValue) : slConflictB o f = slConflictB o g := by
  unfold slConflictB
  rw [h]

theorem ckConflict_self (l : LineValue) : ckConflictB l l = false := by
  unfold ckConflictB
  cases l.checksum <;> simp

theorem ckConflict_symm (l m : LineValue) :
    ckConflictB l m = ckConflictB m l := by
  unfold ckConflictB
  cases l.checksum with
  | none => cases m.checksum <;> simp
  | some a =>
    cases m.checksum with
    | none => simp
    | some b =>
      by_cases hab : a = b <;> simp [hab, Ne, eq_comm]

theorem ckConflict_congr {l m : LineValue} (h : l.checksum = m.checksum)
    (o : LineValue) : ckConflictB o l = ckConflictB o m := by
  unfold ckConflictB
  rw [h]

theorem fun_guard_eq (f o : FunctionValue) (ig : IgnoreError) :
    FunctionValue.guard f o ig =
      (if slConflictB o f = true then
        (if ig.ignore_unmatched_line_error = true then .ok { f with count := 0 }
         else .error .unmatchedFunctionLine)
       else .ok f) := by
  unfold FunctionValue.guard slConflictB
  cases o.start_line with
  | none => simp
  | some a =>
    cases f.start_line with
    | none => simp
    | some b =>
      by_cases hab : a = b <;> simp [hab]

theorem fun_diff_eq (f o : FunctionValue) (ig : IgnoreError) :
    FunctionValue.diff f o ig =
      (if slConflictB o f = true then
        (if ig.ignore_unmatched_line_error = true then .ok { f with count := 0 }
         else .error .unmatchedFunctionLine)
       else if o.count > 0 then .ok { f with count := 0 } else .ok f) := by
  unfold FunctionValue.diff
  rw [fun_guard_eq]
  by_cases hc : slConflictB o f = true
  · by_cases hig : ig.ignore_unmatched_line_error = true
    · by_cases hcount : o.count > 0 <;> simp [hc, hig, hcount]
    · simp [hc, hig]
  · by_cases hcount : o.count > 0 <;> simp [hc, hcount]

theorem fun_diff_start_line {f o r : FunctionValue} {ig : IgnoreError}
    (h : FunctionValue.diff f o ig = .ok r) : r.start_line = f.start_line := by
  rw [fun_diff_eq] at h
  by_cases hc : slConflictB o f = true
  · by_cases hig : ig.ignore_unmatched_line_error = true
    · simp [hc, hig] at h
      rw [← h]
    · simp [hc, hig] at h
  · by_cases hcount : o.count > 0
    · simp [hc, hcount] at h
      rw [← h]
    · simp [hc, hcount] at h
      rw [← h]

theorem fun_diff_error {f o : FunctionValue} {ig : IgnoreError} {e : MergeError}
    (h : FunctionValue.diff f o ig = .error e) :
    e = .unmatchedFunctionLine ∧ slConflictB o f = true ∧
      ig.ignore_unmatched_line_error = false := by
  rw [fun_diff_eq] at h
  by_cases hc : slConflictB o f = true
  · by_cases hig : ig.ignore_unmatched_line_error = true
    · simp [hc, hig] at h
    · simp [hc, hig] at h
      exact ⟨h.symm, hc, Bool.not_eq_true _ ▸ hig⟩
  · by_cases hcount : o.count > 0 <;> simp [hc, hcount] at h

theorem fun_diff_conflict_ignore {f o : FunctionValue} {ig : IgnoreError}
    (hc : slConflictB o f = true) (hig : ig.ignore_unmatched_line_error = true) :
    FunctionValue.diff f o ig = .ok { f with count := 0 } := by
  rw [fun_diff_eq, hc, hig]
  simp

theorem fun_diff_noconflict {f o : FunctionValue} {ig : IgnoreError}
    (hc : slConflictB o f = false) :
    FunctionValue.diff f o ig =
      (if o.count > 0 then .ok { f with count := 0 } else .ok f) := by
  rw [fun_diff_eq, hc]
  simp

theorem fun_diff_self (f : FunctionValue) (ig : IgnoreError) :
    FunctionValue.diff f f ig = .ok (clearFun f) := by
  rw [fun_diff_eq, slConflict_self]
  obtain ⟨sl, c⟩ := f
  by_cases hc : c > 0
  · simp [hc, clearFun]
  · have hc0 : c = 0 := Nat.eq_zero_of_not_pos hc
    subst hc0
    simp [clearFun]

theorem line_guard_eq (l o : LineValue) :
    LineValue.guard l o =
      (if ckConflictB o l = true then .error .unmatchedChecksum else .ok l) := by
  unfold LineValue.guard ckConflictB
  cases o.checksum with
  | none => simp
  | some a =>
    cases l.checksum with
    | none => simp
    | some b =>
      by_cases hab : a = b <;> simp [hab]

theorem line_diff_eq (l o : LineValue) (ig : IgnoreError) :
    LineValue.diff l o ig =
      (if ckConflictB o l = true then .error .unmatchedChecksum
       else if o.count > 0 then .ok { l with count := 0 } else .ok l) := by
  unfold LineValue.diff
  rw [line_guard_eq]
  by_cases hc : ckConflictB o l = true
  · simp [hc]
  · by_cases hcount : o.count > 0 <;> simp [hc, hcount]

theorem line_diff_checksum {l o r : LineValue} {ig : IgnoreError}
    (h : LineValue.diff l o ig = .ok r) : r.checksum = l.checksum := by
  rw [line_diff_eq] at h
  by_cases hc : ckConflictB o l = true
  · simp [hc] at h
  · by_cases hcount : o.count > 0
    · simp [hc, hcount] at h
      rw [← h]
    · simp [hc, hcount] at h
      rw [← h]

theorem line_diff_error {l o : LineValue} {ig : IgnoreError} {e : MergeError}
    (h : LineValue.diff l o ig = .error e) :
    e = .unmatchedChecksum ∧ ckConflictB o l = true := by
  rw [line_diff_eq] at h
  by_cases hc : ckConflictB o l = true
  · simp [hc] at h
    exact ⟨h.symm, hc⟩
  · by_cases hcount : o.count > 0 <;> simp [hc, hcount] at h

theorem line_diff_conflict {l o : LineValue} {ig : IgnoreError}
    (hc : ckConflictB o l = true) :
    LineValue.diff l o ig = .error .unmatchedChecksum := by
  rw [line_diff_eq, hc]
  simp

theorem line_diff_noconflict {l o : LineValue} {ig : IgnoreError}
    (hc : ckConflictB o l = false) :
    LineValue.diff l o ig =
      (if o.count > 0 then .ok { l with count := 0 } else .ok l) := by
  rw [line_diff_eq, hc]
  simp

theorem line_diff_self (l : LineValue) (ig : IgnoreError) :
    LineValue.diff l l ig = .ok (clearLn l) := by
  rw [line_diff_eq, ckConflict_self]
  obtain ⟨c, ck⟩ := l
  by_cases hc : c > 0
  · simp [hc, clearLn]
  · have hc0 : c = 0 := Nat.eq_zero_of_not_pos hc
    subst hc0
    simp [clearLn]

theorem fun_diff_conflict_noignore {f o : FunctionValue} {ig : IgnoreError}
    (hc : slConflictB o f = true) (hig : ig.ignore_unmatched_line_error = false) :
    FunctionValue.diff f o ig = .error .unmatchedFunctionLine := by
  rw [fun_diff_eq, hc, hig]
  simp

/-! ## Section-level and report-level structure lemmas -/

theorem sectionDiff_ok_elim {s o t : SectionValue} {ig : IgnoreError}
    (h : SectionValue.diff s o ig = .ok t) :
    mapDiff FunctionValue.diff s.functions o.functions ig = .ok t.functions ∧
    mapDiff BranchValue.diff s.branches o.branches ig = .ok t.branches ∧
    mapDiff LineValue.diff s.lines o.lines ig = .ok t.lines := by
  unfold SectionValue.diff at h
  cases hf : mapDiff FunctionValue.diff s.functions o.functions ig with
  | error e => rw [hf] at h; cases h
  | ok fs =>
    rw [hf] at h
    cases hb : mapDiff BranchValue.diff s.branches o.branches ig with
    | error e => rw [hb] at h; cases h
    | ok bs =>
      rw [hb] at h
      cases hl : mapDiff LineValue.diff s.lines o.lines ig with
      | error e => rw [hl] at h; cases h
      | ok ls =>
        rw [hl] at h
        injection h with h
        subst h
        exact ⟨rfl, rfl, rfl⟩

theorem sectionDiff_mk {s o : SectionValue} {ig : IgnoreError}
    {fs : List (FunctionKey × FunctionValue)}
    {bs : List (BranchKey × BranchValue)} {ls : List (LineKey × LineValue)}
    (hf : mapDiff FunctionValue.diff s.functions o.functions ig = .ok fs)
    (hb : mapDiff BranchValue.diff s.branches o.branches ig = .ok bs)
    (hl : mapDiff LineValue.diff s.lines o.lines ig = .ok ls) :
    SectionValue.diff s o ig = .ok ⟨fs, bs, ls⟩ := by
  unfold SectionValue.diff
  rw [hf, hb, hl]

theorem branch_mapDiff_no_error {bs os : List (BranchKey × BranchValue)}
    {ig : IgnoreError} {e : MergeError}
    (h : mapDiff BranchValue.diff bs os ig = .error e) : False := by
  obtain ⟨k, ov, v₀, v₁, _, _, _, hd⟩ :=
    mapDiff_error_orig (P := fun _ _ => True) (fun _ => trivial)
      (fun _ _ _ _ _ => trivial) (fun _ _ _ _ => trivial) h
  exact branch_diff_no_error hd

theorem sectionDiff_error_elim {s o : SectionValue} {ig : IgnoreError}
    {e : MergeError} (h : SectionValue.diff s o ig = .error e) :
    mapDiff FunctionValue.diff s.functions o.functions ig = .error e ∨
    mapDiff LineValue.diff s.lines o.lines ig = .error e := by
  unfold SectionValue.diff at h
  cases hf : mapDiff FunctionValue.diff s.functions o.functions ig with
  | error e₁ =>
    rw [hf] at h
    injection h with h
    subst h
    exact Or.inl rfl
  | ok fs =>
    rw [hf] at h
    cases hb : mapDiff BranchValue.diff s.branches o.branches ig with
    | error e₁ => exact (branch_mapDiff_no_error hb).elim
    | ok bs =>
      rw [hb] at h
      cases hl : mapDiff LineValue.diff s.lines o.lines ig with
      | error e₁ =>
        rw [hl] at h
        injection h with h
        subst h
        exact Or.inr rfl
      | ok ls => rw [hl] at h; cases h

theorem forallTwoKeysEq {K V : Type} {R : (K × V) → (K × V) → Prop}
    (hR : ∀ p q, R p q → p.1 = q.1) :
    ∀ {m m₁ : List (K × V)}, List.Forall₂ R m m₁ → keysOf m = keysOf m₁ := by
  intro m m₁ h
  induction h with
  | nil => rfl
  | cons hr _ ih =>
    simp only [keysOf, List.map_cons]
    exact congrArg₂ (· :: ·) (hR _ _ hr) ih

theorem secPres_refl (s : SectionValue) : SecPres s s :=
  ⟨List.forall₂_same.mpr fun _ _ => ⟨rfl, rfl⟩,
   List.forall₂_same.mpr fun _ _ => rfl,
   List.forall₂_same.mpr fun _ _ => ⟨rfl, rfl⟩⟩

theorem secPres_trans {a b c : SectionValue} (h₁ : SecPres a b)
    (h₂ : SecPres b c) : SecPres a c :=
  ⟨forallTwoComp (fun _ _ _ hpq hqr => ⟨hpq.1.trans hqr.1, hqr.2.trans hpq.2⟩)
      h₁.1 h₂.1,
   forallTwoComp (fun _ _ _ hpq hqr => hpq.trans hqr) h₁.2.1 h₂.2.1,
   forallTwoComp (fun _ _ _ hpq hqr => ⟨hpq.1.trans hqr.1, hqr.2.trans hpq.2⟩)
      h₁.2.2 h₂.2.2⟩

theorem secPres_of_diff {s o t : SectionValue} {ig : IgnoreError}
    (h : SectionValue.diff s o ig = .ok t) : SecPres s t := by
  obtain ⟨hf, hb, hl⟩ := sectionDiff_ok_elim h
  refine ⟨?_, ?_, ?_⟩
  · exact mapDiff_forall₂ (P := FunPres) (fun _ => rfl)
      (fun _ _ _ hab hbc => hbc.trans hab)
      (fun _ _ _ hd => fun_diff_start_line hd) hf
  · have hb₂ := mapDiff_forall₂ (P := fun _ _ => True) (fun _ => trivial)
      (fun _ _ _ _ _ => trivial) (fun _ _ _ _ => trivial) hb
    exact List.Forall₂.imp (fun _ _ hpq => hpq.1) hb₂
  · exact mapDiff_forall₂ (P := LinePres) (fun _ => rfl)
      (fun _ _ _ hab hbc => hbc.trans hab)
      (fun _ _ _ hd => line_diff_checksum hd) hl

theorem reportDiff_ok_elim {r o t : Report} {ig : IgnoreError}
    (h : Report.diff r o ig = .ok t) :
    mapDiff SectionValue.diff r.sections o.sections ig = .ok t.sections := by
  unfold Report.diff at h
  cases hm : mapDiff SectionValue.diff r.sections o.sections ig with
  | ok secs =>
    rw [hm] at h
    injection h with h
    subst h
    exact rfl
  | error e => rw [hm] at h; cases h

theorem reportDiff_error_elim {r o : Report} {ig : IgnoreError} {e : MergeError}
    (h : Report.diff r o ig = .error e) :
    mapDiff SectionValue.diff r.sections o.sections ig = .error e := by
  unfold Report.diff at h
  cases hm : mapDiff SectionValue.diff r.sections o.sections ig with
  | ok secs => rw [hm] at h; cases h
  | error e₁ =>
    rw [hm] at h
    injection h with h
    subst h
    exact rfl

theorem reportDiff_mk {r o : Report} {ig : IgnoreError}
    {secs : List (SectionKey × SectionValue)}
    (hm : mapDiff SectionValue.diff r.sections o.sections ig = .ok secs) :
    Report.diff r o ig = .ok ⟨secs⟩ := by
  unfold Report.diff
  rw [hm]

/-! ## Conflict-origin inversion -/

theorem funConflict_intro {first second : Report} {sk : SectionKey}
    {s₁ s₂ : SectionValue} {k : FunctionKey} {f₁ f₂ : FunctionValue}
    (hs₁ : (sk, s₁) ∈ first.sections) (hs₂ : (sk, s₂) ∈ second.sections)
    (hf₁ : (k, f₁) ∈ s₁.functions) (hf₂ : (k, f₂) ∈ s₂.functions)
    (hc : slConflictB f₁ f₂ = true) : funConflictB first second = true := by
  simp only [funConflictB, List.any_eq_true, Bool.and_eq_true, decide_eq_true_eq]
  exact ⟨(sk, s₁), hs₁, (sk, s₂), hs₂, rfl, (k, f₁), hf₁, (k, f₂), hf₂, rfl, hc⟩

theorem chkConflict_intro {first second : Report} {sk : SectionKey}
    {s₁ s₂ : SectionValue} {k : LineKey} {l₁ l₂ : LineValue}
    (hs₁ : (sk, s₁) ∈ first.sections) (hs₂ : (sk, s₂) ∈ second.sections)
    (hl₁ : (k, l₁) ∈ s₁.lines) (hl₂ : (k, l₂) ∈ s₂.lines)
    (hc : ckConflictB l₁ l₂ = true) : chkConflictB first second = true := by
  simp only [chkConflictB, List.any_eq_true, Bool.and_eq_true, decide_eq_true_eq]
  exact ⟨(sk, s₁), hs₁, (sk, s₂), hs₂, rfl, (k, l₁), hl₁, (k, l₂), hl₂, rfl, hc⟩

theorem reportDiff_error_fl {first second : Report} {ig : IgnoreError}
    (h : Report.diff first second ig = .error .unmatchedFunctionLine) :
    ig.ignore_unmatched_line_error = false ∧ funConflictB first second = true := by
  have hm := reportDiff_error_elim h
  obtain ⟨sk, os, s₀, s₁, hos, hs₀, hsp, hsec⟩ :=
    mapDiff_error_orig (P := SecPres) secPres_refl
      (fun _ _ _ h₁ h₂ => secPres_trans h₁ h₂)
      (fun _ _ _ hd => secPres_of_diff hd) hm
  rcases sectionDiff_error_elim hsec with hfl | hll
  · obtain ⟨fk, of, f₀, f₁, hof, hf₀, hfp, hfd⟩ :=
      mapDiff_error_orig (P := FunPres) (fun _ => rfl)
        (fun _ _ _ h₁ h₂ => h₂.trans h₁)
        (fun _ _ _ hd => fun_diff_start_line hd) hfl
    obtain ⟨-, hsl, hig⟩ := fun_diff_error hfd
    obtain ⟨⟨fk₀, g₀⟩, hg₀, hkeq, hgp⟩ := forallTwoMemRight hsp.1 hf₀
    have hgp' : FunPres g₀ f₀ := hgp
    have hchain : f₁.start_line = g₀.start_line := hfp.trans hgp'
    have hsl' : slConflictB of g₀ = true := by
      rw [← slConflict_congr hchain of]
      exact hsl
    have hsym : slConflictB g₀ of = true := by
      rw [slConflict_symm]
      exact hsl'
    have hkeq' : fk₀ = fk := hkeq
    have hg₀' : (fk, g₀) ∈ s₀.functions := hkeq' ▸ hg₀
    exact ⟨hig, funConflict_intro hs₀ hos hg₀' hof hsym⟩
  · obtain ⟨lk, ol, l₀, l₁, hol, hl₀, hlp, hld⟩ :=
      mapDiff_error_orig (P := fun _ _ => True) (fun _ => trivial)
        (fun _ _ _ _ _ => trivial) (fun _ _ _ _ => trivial) hll
    obtain ⟨he, -⟩ := line_diff_error hld
    cases he

theorem reportDiff_error_ck {first second : Report} {ig : IgnoreError}
    (h : Report.diff first second ig = .error .unmatchedChecksum) :
    chkConflictB first second = true := by
  have hm := reportDiff_error_elim h
  obtain ⟨sk, os, s₀, s₁, hos, hs₀, hsp, hsec⟩ :=
    mapDiff_error_orig (P := SecPres) secPres_refl
      (fun _ _ _ h₁ h₂ => secPres_trans h₁ h₂)
      (fun _ _ _ hd => secPres_of_diff hd) hm
  rcases sectionDiff_error_elim hsec with hfl | hll
  · obtain ⟨fk, of, f₀, f₁, hof, hf₀, hfp, hfd⟩ :=
      mapDiff_error_orig (P := fun _ _ => True) (fun _ => trivial)
        (fun _ _ _ _ _ => trivial) (fun _ _ _ _ => trivial) hfl
    obtain ⟨he, -, -⟩ := fun_diff_error hfd
    cases he
  · obtain ⟨lk, ol, l₀, l₁, hol, hl₀, hlp, hld⟩ :=
      mapDiff_error_orig (P := LinePres) (fun _ => rfl)
        (fun _ _ _ h₁ h₂ => h₂.trans h₁)
        (fun _ _ _ hd => line_diff_checksum hd) hll
    obtain ⟨-, hck⟩ := line_diff_error hld
    obtain ⟨⟨lk₀, g₀⟩, hg₀, hkeq, hgp⟩ := forallTwoMemRight hsp.2.2 hl₀
    have hgp' : LinePres g₀ l₀ := hgp
    have hchain : l₁.checksum = g₀.checksum := hlp.trans hgp'
    have hck' : ckConflictB ol g₀ = true := by
      rw [← ckConflict_congr hchain ol]
      exact hck
    have hsym : ckConflictB g₀ ol = true := by
      rw [ckConflict_symm]
      exact hck'
    have hkeq' : lk₀ = lk := hkeq
    have hg₀' : (lk, g₀) ∈ s₀.lines := hkeq' ▸ hg₀
    exact chkConflict_intro hs₀ hos hg₀' hol hsym

theorem reportDiff_ok_of_no_conflict {first second : Report} {ig : IgnoreError}
    (hck : chkConflictB first second = false)
    (hig : ig.ignore_unmatched_line_error = true) :
    ∃ t, Report.diff first second ig = .ok t := by
  cases h : Report.diff first second ig with
  | ok t => exact ⟨t, rfl⟩
  | error e =>
    cases e with
    | unmatchedFunctionLine =>
      obtain ⟨hig₁, -⟩ := reportDiff_error_fl h
      rw [hig] at hig₁
      cases hig₁
    | unmatchedChecksum =>
      have hc := reportDiff_error_ck h
      rw [hck] at hc
      cases hc

/-! ## Guaranteed failure in the presence of conflicts -/

theorem reportDiff_fails_ck {first second : Report} {sk : SectionKey}
    {s₁ s₂ : SectionValue} {lk : LineKey} {l₁ l₂ : LineValue} {c₁ c₂ : String}
    (hwf : Report.WF first)
    (hs₁ : (sk, s₁) ∈ first.sections) (hs₂ : (sk, s₂) ∈ second.sections)
    (hl₁ : (lk, l₁) ∈ s₁.lines) (hl₂ : (lk, l₂) ∈ s₂.lines)
    (hc₁ : l₁.checksum = some c₁) (hc₂ : l₂.checksum = some c₂) (hne : c₁ ≠ c₂)
    (ig : IgnoreError) :
    ∃ e, Report.diff first second ig = .error e := by
  cases h : Report.diff first second ig with
  | error e => exact ⟨e, rfl⟩
  | ok t =>
    exfalso
    have hm := reportDiff_ok_elim h
    obtain ⟨s₃, s₄, hsp, hsd⟩ :=
      mapDiff_ok_shared (P := SecPres) secPres_refl
        (fun _ _ _ p₁ p₂ => secPres_trans p₁ p₂)
        (fun _ _ _ hd => secPres_of_diff hd) hm hwf.1 hs₂ hs₁
    obtain ⟨-, -, hlm⟩ := sectionDiff_ok_elim hsd
    obtain ⟨⟨lk₃, l₃⟩, hl₃, hkeq, hlp⟩ := forallTwoMemLeft hsp.2.2 hl₁
    have hlp' : LinePres l₁ l₃ := hlp
    have hkeq' : lk = lk₃ := hkeq
    have hl₃' : (lk, l₃) ∈ s₃.lines := hkeq'.symm ▸ hl₃
    have hnd : NodupKeys s₃.lines := by
      have hswf := hwf.2 _ hs₁
      have hkeys : keysOf s₁.lines = keysOf s₃.lines :=
        forallTwoKeysEq (fun _ _ hpq => hpq.1) hsp.2.2
      unfold NodupKeys
      rw [← hkeys]
      exact hswf.2.2
    obtain ⟨l₄, l₅, hlp₂, hld⟩ :=
      mapDiff_ok_shared (P := LinePres) (fun _ => rfl)
        (fun _ _ _ p₁ p₂ => p₂.trans p₁)
        (fun _ _ _ hd => line_diff_checksum hd) hlm hnd hl₂ hl₃'
    have hck₄ : l₄.checksum = some c₁ := by
      rw [hlp₂, hlp', hc₁]
    have hcb : ckConflictB l₂ l₄ = true := by
      unfold ckConflictB
      rw [hc₂, hck₄]
      simp [Ne.symm hne]
    rw [line_diff_conflict hcb] at hld
    cases hld

theorem reportDiff_fails_fl {first second : Report} {sk : SectionKey}
    {s₁ s₂ : SectionValue} {fk : FunctionKey} {f₁ f₂ : FunctionValue}
    {a b : Nat} (hwf : Report.WF first)
    (hs₁ : (sk, s₁) ∈ first.sections) (hs₂ : (sk, s₂) ∈ second.sections)
    (hf₁ : (fk, f₁) ∈ s₁.functions) (hf₂ : (fk, f₂) ∈ s₂.functions)
    (ha : f₁.start_line = some a) (hb : f₂.start_line = some b) (hne : a ≠ b)
    {ig : IgnoreError} (hig : ig.ignore_unmatched_line_error = false) :
    ∃ e, Report.diff first second ig = .error e := by
  cases h : Report.diff first second ig with
  | error e => exact ⟨e, rfl⟩
  | ok t =>
    exfalso
    have hm := reportDiff_ok_elim h
    obtain ⟨s₃, s₄, hsp, hsd⟩ :=
      mapDiff_ok_shared (P := SecPres) secPres_refl
        (fun _ _ _ p₁ p₂ => secPres_trans p₁ p₂)
        (fun _ _ _ hd => secPres_of_diff hd) hm hwf.1 hs₂ hs₁
    obtain ⟨hfm, -, -⟩ := sectionDiff_ok_elim hsd
    obtain ⟨⟨fk₃, f₃⟩, hf₃, hkeq, hfp⟩ := forallTwoMemLeft hsp.1 hf₁
    have hfp' : FunPres f₁ f₃ := hfp
    have hkeq' : fk = fk₃ := hkeq
    have hf₃' : (fk, f₃) ∈ s₃.functions := hkeq'.symm ▸ hf₃
    have hnd : NodupKeys s₃.functions := by
      have hswf := hwf.2 _ hs₁
      have hkeys : keysOf s₁.functions = keysOf s₃.functions :=
        forallTwoKeysEq (fun _ _ hpq => hpq.1) hsp.1
      unfold NodupKeys
      rw [← hkeys]
      exact hswf.1
    obtain ⟨f₄, f₅, hfp₂, hfd⟩ :=
      mapDiff_ok_shared (P := FunPres) (fun _ => rfl)
        (fun _ _ _ p₁ p₂ => p₂.trans p₁)
        (fun _ _ _ hd => fun_diff_start_line hd) hfm hnd hf₂ hf₃'
    have hsl₄ : f₄.start_line = some a := by
      rw [hfp₂, hfp', ha]
    have hcb : slConflictB f₂ f₄ = true := by
      unfold slConflictB
      rw [hb, hsl₄]
      simp [Ne.symm hne]
    rw [fun_diff_conflict_noignore hcb hig] at hfd
    cases hfd

/-! ## Record lookup through a successful whole-report diff -/

theorem diffReports_nodrop {first second : Report} {ig : IgnoreError}
    {out : Report} (h : diff_reports first second ig ⟨false⟩ = .ok out) :
    Report.diff first second ig = .ok out := by
  unfold diff_reports at h
  cases hd : Report.diff first second ig with
  | ok rep => rw [hd] at h; simpa using h
  | error e => rw [hd] at h; cases h

theorem diffReports_section_lookup {first second : Report} {ig : IgnoreError}
    {out : Report} {sk : SectionKey} {s₁ s₂ : SectionValue}
    (hwf₁ : Report.WF first) (hwf₂ : Report.WF second)
    (h : diff_reports first second ig ⟨false⟩ = .ok out)
    (hs₁ : (sk, s₁) ∈ first.sections) (hs₂ : (sk, s₂) ∈ second.sections) :
    ∃ so, SectionValue.diff s₁ s₂ ig = .ok so ∧ (sk, so) ∈ out.sections := by
  have hm := reportDiff_ok_elim (diffReports_nodrop h)
  exact mapDiff_lookup hm hwf₁.1 hwf₂.1 hs₁ hs₂

theorem diffReports_drop {first second : Report} {ig : IgnoreError}
    {out : Report} (h : diff_reports first second ig ⟨true⟩ = .ok out) :
    ∃ mid, Report.diff first second ig = .ok mid ∧
      out.sections = mid.sections.filter (fun s => sectionHasSignal s.2) := by
  unfold diff_reports at h
  cases hd : Report.diff first second ig with
  | error e => rw [hd] at h; cases h
  | ok rep =>
    rw [hd] at h
    simp only [if_pos rfl] at h
    injection h with h
    exact ⟨rep, rfl, by rw [← h]⟩

theorem diffReports_error_iff {first second : Report} {ig : IgnoreError}
    {pp : PostProcessOptions} {e : MergeError} :
    diff_reports first second ig pp = .error e ↔
      Report.diff first second ig = .error e := by
  unfold diff_reports
  cases hd : Report.diff first second ig with
  | error e₁ => simp
  | ok rep =>
    cases pp.drop_zeros <;> simp

/-! ## Self-diff clearing -/

theorem mapDiff_self_all {K V : Type} [DecidableEq K]
    {d : V → V → IgnoreError → Except MergeError V} {ig : IgnoreError}
    {g : V → V} {m : List (K × V)} (hnd : NodupKeys m)
    (hg : ∀ kv ∈ m, d kv.2 kv.2 ig = .ok (g kv.2)) :
    mapDiff d m m ig = .ok (m.map fun kv => (kv.1, g kv.2)) := by
  have h := @mapDiff_self_clears K V _ d ig g m []
  simp only [List.nil_append, List.map_nil] at h
  exact h hnd hg

theorem sectionDiff_self {s : SectionValue} (ig : IgnoreError)
    (hwf : SectionValue.WF s)
    (hbr : ∀ b ∈ s.branches, branchPosB b.2 = true) :
    SectionValue.diff s s ig = .ok (clearSec s) :=
  sectionDiff_mk
    (mapDiff_self_all hwf.1 (fun kv _ => fun_diff_self kv.2 ig))
    (mapDiff_self_all hwf.2.1 (fun kv hkv => branch_diff_pos (hbr kv hkv) kv.2 ig))
    (mapDiff_self_all hwf.2.2 (fun kv _ => line_diff_self kv.2 ig))

theorem reportDiff_self {r : Report} (ig : IgnoreError) (hwf : Report.WF r)
    (hbr : ∀ kv ∈ r.sections, ∀ b ∈ kv.2.branches, branchPosB b.2 = true) :
    Report.diff r r ig = .ok ⟨r.sections.map fun kv => (kv.1, clearSec kv.2)⟩ :=
  reportDiff_mk
    (mapDiff_self_all hwf.1
      (fun kv hkv => sectionDiff_self ig (hwf.2 kv hkv) (hbr kv hkv)))

/-! ## Congruence in the second argument (signature stack) -/

theorem fun_diff_congr {o₁ o₂ : FunctionValue} (h : FunSig o₁ o₂)
    (ig : IgnoreError) (v : FunctionValue) :
    FunctionValue.diff v o₁ ig = FunctionValue.diff v o₂ ig := by
  rw [fun_diff_eq, fun_diff_eq]
  have hsl : slConflictB o₁ v = slConflictB o₂ v := by
    unfold slConflictB
    rw [h.1]
  rw [hsl]
  by_cases hc : slConflictB o₂ v = true
  · simp [hc]
  · by_cases h1 : o₁.count > 0
    · have h2 := h.2.mp h1
      simp [hc, h1, h2]
    · have h2 : ¬ o₂.count > 0 := fun hh => h1 (h.2.mpr hh)
      simp [hc, h1, h2]

theorem branch_diff_congr {o₁ o₂ : BranchValue} (h : BrSig o₁ o₂)
    (ig : IgnoreError) (v : BranchValue) :
    BranchValue.diff v o₁ ig = BranchValue.diff v o₂ ig := by
  have h₁ : branchPosB o₁ = branchPosB o₂ := h
  rw [branch_diff_eq, branch_diff_eq, h₁]

theorem line_diff_congr {o₁ o₂ : LineValue} (h : LnSig o₁ o₂)
    (ig : IgnoreError) (v : LineValue) :
    LineValue.diff v o₁ ig = LineValue.diff v o₂ ig := by
  rw [line_diff_eq, line_diff_eq]
  have hck : ckConflictB o₁ v = ckConflictB o₂ v := by
    unfold ckConflictB
    rw [h.1]
  rw [hck]
  by_cases hc : ckConflictB o₂ v = true
  · simp [hc]
  · by_cases h1 : o₁.count > 0
    · have h2 := h.2.mp h1
      simp [hc, h1, h2]
    · have h2 : ¬ o₂.count > 0 := fun hh => h1 (h.2.mpr hh)
      simp [hc, h1, h2]

theorem sectionDiff_congr {o₁ o₂ : SectionValue} (h : SecSig o₁ o₂)
    (ig : IgnoreError) (s : SectionValue) :
    SectionValue.diff s o₁ ig = SectionValue.diff s o₂ ig := by
  unfold SectionValue.diff
  have hf : mapDiff FunctionValue.diff s.functions o₁.functions ig =
      mapDiff FunctionValue.diff s.functions o₂.functions ig :=
    mapDiff_congr (List.Forall₂.imp
      (fun p q hpq => ⟨hpq.1, fun v => fun_diff_congr hpq.2 ig v⟩) h.1)
  have hb : mapDiff BranchValue.diff s.branches o₁.branches ig =
      mapDiff BranchValue.diff s.branches o₂.branches ig :=
    mapDiff_congr (List.Forall₂.imp
      (fun p q hpq => ⟨hpq.1, fun v => branch_diff_congr hpq.2 ig v⟩) h.2.1)
  have hl : mapDiff LineValue.diff s.lines o₁.lines ig =
      mapDiff LineValue.diff s.lines o₂.lines ig :=
    mapDiff_congr (List.Forall₂.imp
      (fun p q hpq => ⟨hpq.1, fun v => line_diff_congr hpq.2 ig v⟩) h.2.2)
  rw [hf, hb, hl]

theorem reportDiff_congr {o₁ o₂ : Report} (h : RepSig o₁ o₂)
    (ig : IgnoreError) (r : Report) :
    Report.diff r o₁ ig = Report.diff r o₂ ig := by
  unfold Report.diff
  have hm : mapDiff SectionValue.diff r.sections o₁.sections ig =
      mapDiff SectionValue.diff r.sections o₂.sections ig :=
    mapDiff_congr (List.Forall₂.imp
      (fun p q hpq => ⟨hpq.1, fun v => sectionDiff_congr hpq.2 ig v⟩) h)
  rw [hm]

/-! ## The standard order of the section diff and the other orders -/

theorem sectionDiffIn_fbl (s o : SectionValue) (ig : IgnoreError) :
    sectionDiffIn [.functions, .branches, .lines] s o ig =
      SectionValue.diff s o ig := by
  cases hf : mapDiff FunctionValue.diff s.functions o.functions ig with
  | error e => simp [sectionDiffIn, applySub, SectionValue.diff, hf]
  | ok fs =>
    cases hb : mapDiff BranchValue.diff s.branches o.branches ig with
    | error e => simp [sectionDiffIn, applySub, SectionValue.diff, hf, hb]
    | ok bs =>
      cases hl : mapDiff LineValue.diff s.lines o.lines ig with
      | error e => simp [sectionDiffIn, applySub, SectionValue.diff, hf, hb, hl]
      | ok ls => simp [sectionDiffIn, applySub, SectionValue.diff, hf, hb, hl]

/-! ## The claims -/

/-- C6: error atomicity — `diff_reports` either succeeds with a fully-diffed
report, or returns exactly the typed error with which the recursive diff
pass failed, and no report.  (In the embedding the inputs are values of a
pure function and cannot be mutated; the initial copy of the first input is
a merge into a freshly created empty report, which finds every key vacant
and cannot fail, so every error comes from the diff pass itself.) -/
theorem c6_atomicity (first second : Report) (ig : IgnoreError)
    (pp : PostProcessOptions) :
    (∃ out, diff_reports first second ig pp = .ok out) ∨
    (∃ e, diff_reports first second ig pp = .error e ∧
      Report.diff first second ig = .error e) := by
  unfold diff_reports
  cases hd : Report.diff first second ig with
  | ok rep =>
    cases hz : pp.drop_zeros
    · exact Or.inl ⟨rep, by simp⟩
    · exact Or.inl
        ⟨⟨rep.sections.filter (fun s => sectionHasSignal s.2)⟩, by simp⟩
  | error e => exact Or.inr ⟨e, rfl, rfl⟩

/-- C9: empty-second identity — diffing any report against the empty report
with `drop_zeros` false returns the first report unchanged, and the same
holds for any second report sharing no section key with the first. -/
theorem c9_empty_second (first : Report) (ig : IgnoreError) :
    diff_reports first ⟨[]⟩ ig ⟨false⟩ = .ok first ∧
    ∀ second : Report,
      (∀ kv ∈ second.sections, kv.1 ∉ keysOf first.sections) →
      diff_reports first second ig ⟨false⟩ = .ok first := by
  constructor
  · rfl
  · intro second hdisj
    have hm : mapDiff SectionValue.diff first.sections second.sections ig =
        .ok first.sections := mapDiff_disjoint hdisj
    have hr : Report.diff first second ig = .ok first := reportDiff_mk hm
    unfold diff_reports
    rw [hr]
    simp

/-- Witness for C9 at a concrete report and a key-disjoint second report. -/
theorem c9_witness :
    diff_reports w9First ⟨[]⟩ ⟨false⟩ ⟨false⟩ = .ok w9First ∧
    diff_reports w9First w9Second ⟨false⟩ ⟨false⟩ = .ok w9First :=
  ⟨(c9_empty_second w9First ⟨false⟩).1,
   (c9_empty_second w9First ⟨false⟩).2 w9Second (by decide)⟩

/-- C10: count-magnitude noninterference — two second inputs with the same
key structure, the same start lines and checksums, and the same positivity
of every count and taken flag, produce identical results of `diff_reports`
for every first input and configuration. -/
theorem c10_magnitude (first s₁ s₂ : Report) (ig : IgnoreError)
    (pp : PostProcessOptions) (h : RepSig s₁ s₂) :
    diff_reports first s₁ ig pp = diff_reports first s₂ ig pp := by
  unfold diff_reports
  rw [reportDiff_congr h ig first]

/-- Witness for C10: the two second reports differ in all magnitudes but
agree on signs. -/
theorem c10_witness :
    diff_reports c10First c10A ⟨false⟩ ⟨false⟩ =
      diff_reports c10First c10B ⟨false⟩ ⟨false⟩ :=
  c10_magnitude c10First c10A c10B ⟨false⟩ ⟨false⟩
    (.cons ⟨rfl, .cons ⟨rfl, rfl, by decide⟩ .nil,
      .cons ⟨rfl, rfl⟩ .nil,
      .cons ⟨rfl, rfl, by decide⟩ .nil⟩ .nil)

/-- C8: self-diff clearing — diffing a well-formed report whose function
counts, line counts and branch taken counts are all present and positive
against itself succeeds under every configuration, and every record of the
result is cleared (counts 0, taken absent). -/
theorem c8_self_diff (r : Report) (ig : IgnoreError) (pp : PostProcessOptions)
    (hwf : Report.WF r) (hpos : Report.AllPositive r) :
    ∃ out, diff_reports r r ig pp = .ok out ∧
      ∀ kv ∈ out.sections,
        (∀ f ∈ kv.2.functions, f.2.count = 0) ∧
        (∀ b ∈ kv.2.branches, b.2.taken = none) ∧
        (∀ l ∈ kv.2.lines, l.2.count = 0) := by
  have hbr : ∀ kv ∈ r.sections, ∀ b ∈ kv.2.branches, branchPosB b.2 = true :=
    fun kv hkv => (hpos kv hkv).2.1
  have hd := reportDiff_self ig hwf hbr
  have hcleared : ∀ kv ∈ (r.sections.map fun kv => (kv.1, clearSec kv.2)),
      (∀ f ∈ kv.2.functions, f.2.count = 0) ∧
      (∀ b ∈ kv.2.branches, b.2.taken = none) ∧
      (∀ l ∈ kv.2.lines, l.2.count = 0) := by
    intro kv hkv
    obtain ⟨⟨k, s⟩, hmem, heq⟩ := List.mem_map.mp hkv
    rw [← heq]
    refine ⟨?_, ?_, ?_⟩
    · intro f hf
      obtain ⟨f₀, -, hfeq⟩ := List.mem_map.mp hf
      rw [← hfeq]
      rfl
    · intro b hb
      obtain ⟨b₀, -, hbeq⟩ := List.mem_map.mp hb
      rw [← hbeq]
      rfl
    · intro l hl
      obtain ⟨l₀, -, hleq⟩ := List.mem_map.mp hl
      rw [← hleq]
      rfl
  cases hz : pp.drop_zeros
  · refine ⟨⟨r.sections.map fun kv => (kv.1, clearSec kv.2)⟩, ?_, hcleared⟩
    unfold diff_reports
    rw [hd, hz]
    simp
  · refine ⟨⟨(r.sections.map fun kv => (kv.1, clearSec kv.2)).filter
        (fun s => sectionHasSignal s.2)⟩, ?_, ?_⟩
    · unfold diff_reports
      rw [hd, hz]
      simp
    · intro kv hkv
      exact hcleared kv (List.mem_filter.mp hkv).1

/-- Witness for C8 at a concrete all-positive report. -/
theorem c8_witness :
    ∃ out, diff_reports c8Rep c8Rep ⟨false⟩ ⟨false⟩ = .ok out ∧
      ∀ kv ∈ out.sections,
        (∀ f ∈ kv.2.functions, f.2.count = 0) ∧
        (∀ b ∈ kv.2.branches, b.2.taken = none) ∧
        (∀ l ∈ kv.2.lines, l.2.count = 0) :=
  c8_self_diff c8Rep ⟨false⟩ ⟨false⟩ (by decide) (by decide)

/-- C5 fails on the code: with `drop_zeros` set, the retain test keeps a
section whose only branch has a **present** taken count of 0, although none
of its function counts, line counts, or branch taken flags is positive. -/
theorem c5_cex :
    diff_reports c5First ⟨[]⟩ ⟨false⟩ ⟨true⟩ = .ok c5First ∧
    (∀ kv ∈ c5First.sections,
      (∀ f ∈ kv.2.functions, ¬ f.2.count > 0) ∧
      (∀ b ∈ kv.2.branches, branchPosB b.2 = false) ∧
      (∀ l ∈ kv.2.lines, ¬ l.2.count > 0)) ∧
    c5First.sections ≠ [] :=
  ⟨rfl, by decide, by decide⟩

/-- C5 amended: with `drop_zeros` set, every section remaining in the output
has, after diffing, at least one branch with a **present** taken count
(possibly 0), or one function with positive count, or one line with
positive count; sections failing all three tests are removed. -/
theorem c5_amended (first second : Report) (ig : IgnoreError) (out : Report)
    (h : diff_reports first second ig ⟨true⟩ = .ok out) :
    ∀ kv ∈ out.sections,
      (∃ b ∈ kv.2.branches, b.2.taken.isSome = true) ∨
      (∃ f ∈ kv.2.functions, f.2.count > 0) ∨
      (∃ l ∈ kv.2.lines, l.2.count > 0) := by
  obtain ⟨mid, hmid, hout⟩ := diffReports_drop h
  intro kv hkv
  rw [hout] at hkv
  have hsig := (List.mem_filter.mp hkv).2
  unfold sectionHasSignal at hsig
  simp only [Bool.or_eq_true, List.any_eq_true, decide_eq_true_eq] at hsig
  rcases hsig with (hb | hf) | hl
  · exact Or.inl hb
  · exact Or.inr (Or.inl hf)
  · exact Or.inr (Or.inr hl)

/-- Witness for C5 at a report kept because of a positive line count. -/
theorem c5_witness :
    (∃ b ∈ ([] : List (BranchKey × BranchValue)), b.2.taken.isSome = true) ∨
    (∃ f ∈ ([] : List (FunctionKey × FunctionValue)), f.2.count > 0) ∨
    (∃ l ∈ [(1, (⟨2, none⟩ : LineValue))], l.2.count > 0) :=
  c5_amended w5First ⟨[]⟩ ⟨false⟩ w5First rfl
    (("t", "f"), ⟨[], [], [(1, ⟨2, none⟩)]⟩) (by decide)

/-- C2 fails on the code: with `drop_zeros` set, a section key of the first
input can be missing from the output, so the output's key set is not always
exactly the first input's. -/
theorem c2_cex :
    diff_reports c2First ⟨[]⟩ ⟨false⟩ ⟨true⟩ = .ok ⟨[]⟩ ∧
    keysOf c2First.sections ≠ ([] : List SectionKey) :=
  ⟨rfl, by decide⟩

/-- C2 amended: with `drop_zeros` false the key structure of the output is
exactly the first input's at every level; with `drop_zeros` set the
output's section keys form a subsequence of the first input's, and every
surviving section keeps exactly the sub-keys of the first input's section
at that key.  Keys present only in the second input never appear. -/
theorem c2_amended (first second : Report) (ig : IgnoreError) :
    (∀ out, diff_reports first second ig ⟨false⟩ = .ok out →
      keysOf out.sections = keysOf first.sections ∧
      ∀ kv ∈ out.sections, ∃ v, (kv.1, v) ∈ first.sections ∧
        keysOf kv.2.functions = keysOf v.functions ∧
        keysOf kv.2.branches = keysOf v.branches ∧
        keysOf kv.2.lines = keysOf v.lines) ∧
    (∀ out, diff_reports first second ig ⟨true⟩ = .ok out →
      List.Sublist (keysOf out.sections) (keysOf first.sections) ∧
      ∀ kv ∈ out.sections, ∃ v, (kv.1, v) ∈ first.sections ∧
        keysOf kv.2.functions = keysOf v.functions ∧
        keysOf kv.2.branches = keysOf v.branches ∧
        keysOf kv.2.lines = keysOf v.lines) := by
  have hstep : ∀ mid : Report, Report.diff first second ig = .ok mid →
      keysOf mid.sections = keysOf first.sections ∧
      List.Forall₂ (fun p q => p.1 = q.1 ∧
        keysOf q.2.functions = keysOf p.2.functions ∧
        keysOf q.2.branches = keysOf p.2.branches ∧
        keysOf q.2.lines = keysOf p.2.lines) first.sections mid.sections := by
    intro mid h
    have hm := reportDiff_ok_elim h
    refine ⟨mapDiff_keys hm, ?_⟩
    exact mapDiff_forall₂
      (P := fun s t => keysOf t.functions = keysOf s.functions ∧
        keysOf t.branches = keysOf s.branches ∧
        keysOf t.lines = keysOf s.lines)
      (fun _ => ⟨rfl, rfl, rfl⟩)
      (fun _ _ _ h₁ h₂ => by
        exact ⟨h₂.1.trans h₁.1, h₂.2.1.trans h₁.2.1, h₂.2.2.trans h₁.2.2⟩)
      (fun s o t hd => by
        have sp := secPres_of_diff hd
        exact ⟨(forallTwoKeysEq (fun _ _ q => q.1) sp.1).symm,
          (forallTwoKeysEq (fun _ _ q => q) sp.2.1).symm,
          (forallTwoKeysEq (fun _ _ q => q.1) sp.2.2).symm⟩)
      hm
  have hmem : ∀ mid : Report,
      List.Forall₂ (fun p q => p.1 = q.1 ∧
        keysOf q.2.functions = keysOf p.2.functions ∧
        keysOf q.2.branches = keysOf p.2.branches ∧
        keysOf q.2.lines = keysOf p.2.lines) first.sections mid.sections →
      ∀ kv ∈ mid.sections, ∃ v, (kv.1, v) ∈ first.sections ∧
        keysOf kv.2.functions = keysOf v.functions ∧
        keysOf kv.2.branches = keysOf v.branches ∧
        keysOf kv.2.lines = keysOf v.lines := by
    intro mid hfa kv hkv
    obtain ⟨⟨k₀, v₀⟩, hv₀, hk₀, hkeys₀⟩ := forallTwoMemRight hfa hkv
    have hk₀' : k₀ = kv.1 := hk₀
    exact ⟨v₀, hk₀' ▸ hv₀, hkeys₀⟩
  constructor
  · intro out hok
    have hd := diffReports_nodrop hok
    obtain ⟨hkeys, hfa⟩ := hstep out hd
    exact ⟨hkeys, hmem out hfa⟩
  · intro out hok
    obtain ⟨mid, hmid, hout⟩ := diffReports_drop hok
    obtain ⟨hkeys, hfa⟩ := hstep mid hmid
    constructor
    · rw [hout]
      have hsub : List.Sublist
          (keysOf (mid.sections.filter (fun s => sectionHasSignal s.2)))
          (keysOf mid.sections) :=
        (List.filter_sublist _).map Prod.fst
      rw [hkeys] at hsub
      exact hsub
    · intro kv hkv
      rw [hout] at hkv
      exact hmem mid hfa kv (List.mem_filter.mp hkv).1

/-- Witness for C2 at concrete reports whose shared section has disjoint
sub-keys. -/
theorem c2_witness :
    keysOf w2First.sections = keysOf w2First.sections ∧
    ∀ kv ∈ w2First.sections, ∃ v, (kv.1, v) ∈ w2First.sections ∧
      keysOf kv.2.functions = keysOf v.functions ∧
      keysOf kv.2.branches = keysOf v.branches ∧
      keysOf kv.2.lines = keysOf v.lines :=
  (c2_amended w2First w2Second ⟨false⟩).1 w2First rfl

/-- C1 fails on the code: with the ignore flag set, a function key shared by
both inputs whose start lines differ has its count cleared in the output
even though the second input's count is 0 (zero signal), so the first
input's record is *not* kept unchanged. -/
theorem c1_cex :
    diff_reports c1First c1Second ⟨true⟩ ⟨false⟩ = .ok c1Out ∧
    (∀ kv ∈ c1Second.sections, ∀ f ∈ kv.2.functions, f.2.count = 0) ∧
    (∀ kv ∈ c1Out.sections, ∀ f ∈ kv.2.functions, f.2.count = 0) ∧
    (∃ kv ∈ c1First.sections, ∃ f ∈ kv.2.functions, f.2.count = 5) :=
  ⟨rfl, by decide, by decide, by decide⟩

/-- C1 amended: for every key shared by both inputs (under a shared section
key), on a successful `diff_reports` run with `drop_zeros` false the output
record is: cleared when the second input's signal is positive (count set to
0 for functions and lines, taken set to absent for branches, all other
fields kept); and equal to the first input's record when the second input's
signal is zero or absent — except for a function record whose two present
start lines differ (then the ignore policy clears the count even with zero
signal). -/
theorem c1_amended (first second : Report) (ig : IgnoreError) (out : Report)
    (hwf₁ : Report.WF first) (hwf₂ : Report.WF second)
    (hok : diff_reports first second ig ⟨false⟩ = .ok out)
    (sk : SectionKey) (s₁ s₂ so : SectionValue)
    (hs₁ : (sk, s₁) ∈ first.sections) (hs₂ : (sk, s₂) ∈ second.sections)
    (hso : (sk, so) ∈ out.sections) :
    (∀ k f₁ f₂ fo, (k, f₁) ∈ s₁.functions → (k, f₂) ∈ s₂.functions →
      (k, fo) ∈ so.functions →
      (f₂.count > 0 → fo = { f₁ with count := 0 }) ∧
      (f₂.count = 0 → slConflictB f₂ f₁ = false → fo = f₁)) ∧
    (∀ k b₁ b₂ bo, (k, b₁) ∈ s₁.branches → (k, b₂) ∈ s₂.branches →
      (k, bo) ∈ so.branches →
      (branchPosB b₂ = true → bo = ⟨none⟩) ∧
      (branchPosB b₂ = false → bo = b₁)) ∧
    (∀ k l₁ l₂ lo, (k, l₁) ∈ s₁.lines → (k, l₂) ∈ s₂.lines →
      (k, lo) ∈ so.lines →
      (l₂.count > 0 → lo = { l₁ with count := 0 }) ∧
      (l₂.count = 0 → lo = l₁)) := by
  obtain ⟨so₁, hsd, hso₁⟩ := diffReports_section_lookup hwf₁ hwf₂ hok hs₁ hs₂
  have hndout : NodupKeys out.sections := by
    have hkeys := mapDiff_keys (reportDiff_ok_elim (diffReports_nodrop hok))
    unfold NodupKeys
    rw [hkeys]
    exact hwf₁.1
  have hsoeq : so = so₁ := mem_unique hndout hso hso₁
  subst hsoeq
  obtain ⟨hfm, hbm, hlm⟩ := sectionDiff_ok_elim hsd
  have hswf₁ := hwf₁.2 _ hs₁
  have hswf₂ := hwf₂.2 _ hs₂
  refine ⟨?_, ?_, ?_⟩
  · intro k f₁ f₂ fo hf₁ hf₂ hfo
    obtain ⟨fo₁, hfd, hfo₁⟩ := mapDiff_lookup hfm hswf₁.1 hswf₂.1 hf₁ hf₂
    have hndf : NodupKeys so.functions := by
      unfold NodupKeys
      rw [mapDiff_keys hfm]
      exact hswf₁.1
    have hfoeq : fo = fo₁ := mem_unique hndf hfo hfo₁
    subst hfoeq
    rw [fun_diff_eq] at hfd
    constructor
    · intro hpos
      by_cases hc : slConflictB f₂ f₁ = true
      · cases hig : ig.ignore_unmatched_line_error
        · simp [hc, hig] at hfd
        · simp [hc, hig] at hfd
          exact hfd.symm
      · simp [hc, hpos] at hfd
        exact hfd.symm
    · intro hzero hcf
      have hc : ¬ slConflictB f₂ f₁ = true := by
        rw [hcf]
        simp
      simp [hc, hzero] at hfd
      exact hfd.symm
  · intro k b₁ b₂ bo hb₁ hb₂ hbo
    obtain ⟨bo₁, hbd, hbo₁⟩ := mapDiff_lookup hbm hswf₁.2.1 hswf₂.2.1 hb₁ hb₂
    have hndb : NodupKeys so.branches := by
      unfold NodupKeys
      rw [mapDiff_keys hbm]
      exact hswf₁.2.1
    have hboeq : bo = bo₁ := mem_unique hndb hbo hbo₁
    subst hboeq
    rw [branch_diff_eq] at hbd
    constructor
    · intro hpos
      simp [hpos] at hbd
      exact hbd.symm
    · intro hpos
      simp [hpos] at hbd
      exact hbd.symm
  · intro k l₁ l₂ lo hl₁ hl₂ hlo
    obtain ⟨lo₁, hld, hlo₁⟩ := mapDiff_lookup hlm hswf₁.2.2 hswf₂.2.2 hl₁ hl₂
    have hndl : NodupKeys so.lines := by
      unfold NodupKeys
      rw [mapDiff_keys hlm]
      exact hswf₁.2.2
    have hloeq : lo = lo₁ := mem_unique hndl hlo hlo₁
    subst hloeq
    rw [line_diff_eq] at hld
    by_cases hc : ckConflictB l₂ l₁ = true
    · simp [hc] at hld
    · constructor
      · intro hpos
        simp [hc, hpos] at hld
        exact hld.symm
      · intro hzero
        simp [hc, hzero] at hld
        exact hld.symm

/-- Witness for C1: a shared function with positive second signal is
cleared, and a shared branch with zero second signal is kept unchanged. -/
theorem c1_witness :
    ((⟨some 1, 0⟩ : FunctionValue) =
      { (⟨some 1, 3⟩ : FunctionValue) with count := 0 }) ∧
    ((⟨some 2⟩ : BranchValue) = ⟨some 2⟩) := by
  have h := c1_amended w1First w1Second ⟨false⟩ w1Out (by decide) (by decide)
    rfl ("t", "a.c")
    ⟨[("f", ⟨some 1, 3⟩)], [((7, 0, 0), ⟨some 2⟩)], [(4, ⟨4, none⟩)]⟩
    ⟨[("f", ⟨some 1, 7⟩)], [((7, 0, 0), ⟨some 0⟩)], [(4, ⟨0, none⟩)]⟩
    ⟨[("f", ⟨some 1, 0⟩)], [((7, 0, 0), ⟨some 2⟩)], [(4, ⟨4, none⟩)]⟩
    (by decide) (by decide) (by decide)
  exact ⟨(h.1 "f" ⟨some 1, 3⟩ ⟨some 1, 7⟩ ⟨some 1, 0⟩ (by decide) (by decide)
      (by decide)).1 (by decide),
    (h.2.1 (7, 0, 0) ⟨some 2⟩ ⟨some 0⟩ ⟨some 2⟩ (by decide) (by decide)
      (by decide)).2 (by decide)⟩

/-- C7 fails on the code: when a section holds both a function start-line
conflict and a line checksum conflict (ignore flag false), the code's order
(functions, branches, lines) reports `UnmatchedFunctionLine` while the
order (lines, branches, functions) reports `UnmatchedChecksum`: the result
on failure depends on the order. -/
theorem c7_cex :
    SectionValue.diff c7S c7O ⟨false⟩ = .error .unmatchedFunctionLine ∧
    sectionDiffIn [SubMap.lines, SubMap.branches, SubMap.functions] c7S c7O
      ⟨false⟩ = .error .unmatchedChecksum ∧
    sectionDiffIn [SubMap.functions, SubMap.branches, SubMap.lines] c7S c7O
      ⟨false⟩ = SectionValue.diff c7S c7O ⟨false⟩ :=
  ⟨rfl, rfl, sectionDiffIn_fbl c7S c7O ⟨false⟩⟩

/-- C7 amended: for every order of the three sub-mappings, diffing a section
in that order succeeds exactly when the code's order (functions, branches,
lines) does, and on success produces the same section; on failure the two
orders may report different errors. -/
theorem c7_amended (s o : SectionValue) (ig : IgnoreError)
    (order : List SubMap)
    (h : order ∈ [[SubMap.functions, SubMap.branches, SubMap.lines],
                  [SubMap.functions, SubMap.lines, SubMap.branches],
                  [SubMap.branches, SubMap.functions, SubMap.lines],
                  [SubMap.branches, SubMap.lines, SubMap.functions],
                  [SubMap.lines, SubMap.functions, SubMap.branches],
                  [SubMap.lines, SubMap.branches, SubMap.functions]]) :
    isOkB (sectionDiffIn order s o ig) = isOkB (SectionValue.diff s o ig) ∧
    ∀ r, sectionDiffIn order s o ig = .ok r ↔
      SectionValue.diff s o ig = .ok r := by
  simp only [List.mem_cons, List.not_mem_nil, or_false] at h
  rcases h with h₁ | h₁ | h₁ | h₁ | h₁ | h₁ <;> subst h₁ <;>
    refine ⟨?_, fun r => ?_⟩ <;>
    cases hf : mapDiff FunctionValue.diff s.functions o.functions ig <;>
    cases hb : mapDiff BranchValue.diff s.branches o.branches ig <;>
    cases hl : mapDiff LineValue.diff s.lines o.lines ig <;>
    simp [sectionDiffIn, applySub, SectionValue.diff, isOkB, hf, hb, hl]

/-- Witness for C7 at a concrete section and the reversed order. -/
theorem c7_witness :
    isOkB (sectionDiffIn [SubMap.lines, SubMap.functions, SubMap.branches]
        w7S w7O ⟨false⟩) =
      isOkB (SectionValue.diff w7S w7O ⟨false⟩) ∧
    ∀ r, sectionDiffIn [SubMap.lines, SubMap.functions, SubMap.branches]
        w7S w7O ⟨false⟩ = .ok r ↔
      SectionValue.diff w7S w7O ⟨false⟩ = .ok r :=
  c7_amended w7S w7O ⟨false⟩
    [SubMap.lines, SubMap.functions, SubMap.branches] (by decide)

/-- C3 fails on the code as stated: the inputs hold a shared line key with
present, differing checksums, yet with the ignore flag false the call fails
with `UnmatchedFunctionLine` (a coexisting function start-line conflict is
found first, functions being diffed before lines), not with
`UnmatchedChecksum`. -/
theorem c3_cex :
    chkConflictB c3First c3Second = true ∧
    diff_reports c3First c3Second ⟨false⟩ ⟨false⟩ =
      .error .unmatchedFunctionLine ∧
    MergeError.unmatchedFunctionLine ≠ MergeError.unmatchedChecksum :=
  ⟨by decide, rfl, by decide⟩

/-- C3 amended: if some line key shared by both inputs under a shared
section key has present, differing checksums, then under every
configuration (no option suppresses this) `diff_reports` fails and returns
no report; the error is `UnmatchedChecksum` whenever the inputs contain no
shared function pair with present, differing start lines (with such a pair
and the ignore flag false the reported error may be `UnmatchedFunctionLine`
instead). -/
theorem c3_amended (first second : Report) (sk : SectionKey)
    (s₁ s₂ : SectionValue) (lk : LineKey) (l₁ l₂ : LineValue) (c₁ c₂ : String)
    (hwf : Report.WF first)
    (hs₁ : (sk, s₁) ∈ first.sections) (hs₂ : (sk, s₂) ∈ second.sections)
    (hl₁ : (lk, l₁) ∈ s₁.lines) (hl₂ : (lk, l₂) ∈ s₂.lines)
    (hc₁ : l₁.checksum = some c₁) (hc₂ : l₂.checksum = some c₂)
    (hne : c₁ ≠ c₂) (ig : IgnoreError) (pp : PostProcessOptions) :
    (∃ e, diff_reports first second ig pp = .error e) ∧
    (funConflictB first second = false →
      diff_reports first second ig pp = .error .unmatchedChecksum) := by
  obtain ⟨e, he⟩ := reportDiff_fails_ck hwf hs₁ hs₂ hl₁ hl₂ hc₁ hc₂ hne ig
  refine ⟨⟨e, diffReports_error_iff.mpr he⟩, ?_⟩
  intro hnf
  cases e with
  | unmatchedChecksum => exact diffReports_error_iff.mpr he
  | unmatchedFunctionLine =>
    obtain ⟨-, hfc⟩ := reportDiff_error_fl he
    rw [hnf] at hfc
    cases hfc

/-- Witness for C3 at concrete reports with only a checksum conflict; even
the ignore flag set to true does not suppress the failure. -/
theorem c3_witness :
    diff_reports w3First w3Second ⟨true⟩ ⟨false⟩ =
      .error .unmatchedChecksum :=
  (c3_amended w3First w3Second ("t", "x")
    ⟨[], [], [(1, ⟨1, some "a"⟩)]⟩ ⟨[], [], [(1, ⟨2, some "b"⟩)]⟩
    1 ⟨1, some "a"⟩ ⟨2, some "b"⟩ "a" "b"
    (by decide) (by decide) (by decide) (by decide) (by decide)
    rfl rfl (by decide) ⟨true⟩ ⟨false⟩).2 (by decide)

/-- C4 fails on the code as stated: the inputs hold a shared function key
with present, differing start lines, yet with the ignore flag false the
call fails with `UnmatchedChecksum` (a checksum conflict in an earlier
section is found first), not with `UnmatchedFunctionLine`. -/
theorem c4_cex :
    funConflictB c4First c4Second = true ∧
    diff_reports c4First c4Second ⟨false⟩ ⟨false⟩ =
      .error .unmatchedChecksum ∧
    MergeError.unmatchedChecksum ≠ MergeError.unmatchedFunctionLine :=
  ⟨by decide, rfl, by decide⟩

/-- C4 amended: if some function key shared by both inputs under a shared
section key has present, differing start lines, then: with the ignore flag
false the call fails under every post-processing configuration, and the
error is `UnmatchedFunctionLine` whenever no shared line pair has present,
differing checksums (otherwise it may be `UnmatchedChecksum`); with the
ignore flag true and no such checksum conflict, the call with `drop_zeros`
false succeeds and that function's record in the output is the first
input's record with its count set to 0. -/
theorem c4_amended (first second : Report) (sk : SectionKey)
    (s₁ s₂ : SectionValue) (fk : FunctionKey) (f₁ f₂ : FunctionValue)
    (a b : Nat) (hwf₁ : Report.WF first) (hwf₂ : Report.WF second)
    (hs₁ : (sk, s₁) ∈ first.sections) (hs₂ : (sk, s₂) ∈ second.sections)
    (hf₁ : (fk, f₁) ∈ s₁.functions) (hf₂ : (fk, f₂) ∈ s₂.functions)
    (ha : f₁.start_line = some a) (hb : f₂.start_line = some b)
    (hne : a ≠ b) :
    (∀ pp : PostProcessOptions,
      (∃ e, diff_reports first second ⟨false⟩ pp = .error e) ∧
      (chkConflictB first second = false →
        diff_reports first second ⟨false⟩ pp =
          .error .unmatchedFunctionLine)) ∧
    (chkConflictB first second = false →
      ∃ out, diff_reports first second ⟨true⟩ ⟨false⟩ = .ok out ∧
        ∃ so, (sk, so) ∈ out.sections ∧
          (fk, { f₁ with count := 0 }) ∈ so.functions) := by
  constructor
  · intro pp
    obtain ⟨e, he⟩ := reportDiff_fails_fl hwf₁ hs₁ hs₂ hf₁ hf₂ ha hb hne rfl
    refine ⟨⟨e, diffReports_error_iff.mpr he⟩, ?_⟩
    intro hnc
    cases e with
    | unmatchedFunctionLine => exact diffReports_error_iff.mpr he
    | unmatchedChecksum =>
      have hc := reportDiff_error_ck he
      rw [hnc] at hc
      cases hc
  · intro hnc
    obtain ⟨t, ht⟩ := reportDiff_ok_of_no_conflict hnc rfl
    have hok : diff_reports first second ⟨true⟩ ⟨false⟩ = .ok t := by
      unfold diff_reports
      rw [ht]
      simp
    obtain ⟨so, hsd, hso⟩ := diffReports_section_lookup hwf₁ hwf₂ hok hs₁ hs₂
    have hswf₁ := hwf₁.2 _ hs₁
    have hswf₂ := hwf₂.2 _ hs₂
    obtain ⟨hfm, -, -⟩ := sectionDiff_ok_elim hsd
    obtain ⟨fo, hfd, hfo⟩ := mapDiff_lookup hfm hswf₁.1 hswf₂.1 hf₁ hf₂
    have hc : slConflictB f₂ f₁ = true := by
      unfold slConflictB
      rw [hb, ha]
      simp [Ne.symm hne]
    rw [fun_diff_conflict_ignore hc rfl] at hfd
    injection hfd with hfd
    exact ⟨t, hok, so, hso, hfd ▸ hfo⟩

/-- Witness for C4 at concrete reports with only a start-line conflict,
exercising both the failing (ignore false) and the succeeding (ignore true)
policy. -/
theorem c4_witness :
    diff_reports w4First w4Second ⟨false⟩ ⟨false⟩ =
      .error .unmatchedFunctionLine ∧
    ∃ out, diff_reports w4First w4Second ⟨true⟩ ⟨false⟩ = .ok out ∧
      ∃ so, (("t", "x"), so) ∈ out.sections ∧
        ("f", ({ start_line := some 1, count := 0 } : FunctionValue)) ∈
          so.functions := by
  have h := c4_amended w4First w4Second ("t", "x")
    ⟨[("f", ⟨some 1, 3⟩)], [], []⟩ ⟨[("f", ⟨some 9, 0⟩)], [], []⟩
    "f" ⟨some 1, 3⟩ ⟨some 9, 0⟩ 1 9
    (by decide) (by decide) (by decide) (by decide) (by decide) (by decide)
    rfl rfl (by decide)
  exact ⟨(h.1 ⟨false⟩).2 (by decide), h.2 (by decide)⟩

end LcovDiff
